import Mathlib

/-!
Shallow embedding of the PSBT value codec of src/serialize.rs, together with
the external capabilities it delegates to (bitcoin consensus encoding,
secp256k1 parsing, the taproot tree builder).  Byte strings are modelled as
lists of natural numbers; a value below 256 is a byte.
-/

deriving instance DecidableEq for Except

namespace Psbt

/-! ## Little-endian fixed-width integers (bitcoin consensus encoding) -/

/-- Value of four little-endian bytes. -/
def leToU32 (b0 b1 b2 b3 : Nat) : Nat := b0 + 256 * b1 + 65536 * b2 + 16777216 * b3

/-- Little-endian consensus encoding of a 32-bit integer. -/
def u32ToLe (n : Nat) : List Nat :=
  [n % 256, n / 256 % 256, n / 65536 % 256, n / 16777216 % 256]

/-- Little-endian consensus encoding of a 16-bit integer. -/
def u16ToLe (n : Nat) : List Nat := [n % 256, n / 256 % 256]

/-- Little-endian consensus encoding of a 64-bit integer. -/
def u64ToLe (n : Nat) : List Nat :=
  [n % 256, n / 256 % 256, n / 65536 % 256, n / 16777216 % 256,
   n / 4294967296 % 256, n / 1099511627776 % 256, n / 281474976710656 % 256,
   n / 72057594037927936 % 256]

/-- Model of the external bitcoin consensus decoding errors that the codec can
observe: a reader running out of bytes surfaces as an io error, a varint that
is not minimally encoded is rejected, and full deserialization that leaves
bytes unconsumed is a parse failure. -/
inductive ConsensusError
  | ioUnexpectedEof
  | nonMinimalVarInt
  | parseFailed (msg : String)
  deriving DecidableEq

/-- Message used by the consensus deserializer when input remains. -/
def notConsumedMsg : String := "data not consumed entirely when explicitly deserializing"

/-- Read one 32-bit little-endian integer off the front of a byte string,
returning the value and the remaining bytes (model of u32 consensus_decode). -/
def readU32 : List Nat → Except ConsensusError (Nat × List Nat)
  | b0 :: b1 :: b2 :: b3 :: rest => .ok (leToU32 b0 b1 b2 b3, rest)
  | _ => .error .ioUnexpectedEof

/-- Read one 16-bit little-endian integer off the front of a byte string. -/
def readU16 : List Nat → Except ConsensusError (Nat × List Nat)
  | b0 :: b1 :: rest => .ok (b0 + 256 * b1, rest)
  | _ => .error .ioUnexpectedEof

/-- Read one 64-bit little-endian integer off the front of a byte string. -/
def readU64 : List Nat → Except ConsensusError (Nat × List Nat)
  | b0 :: b1 :: b2 :: b3 :: b4 :: b5 :: b6 :: b7 :: rest =>
    .ok (b0 + 256 * b1 + 65536 * b2 + 16777216 * b3 + 4294967296 * b4 +
         1099511627776 * b5 + 281474976710656 * b6 + 72057594037927936 * b7, rest)
  | _ => .error .ioUnexpectedEof

/-- Model of the bitcoin VarInt consensus encoding. -/
def varIntEncode (n : Nat) : List Nat :=
  if n < 0xFD then [n]
  else if n ≤ 0xFFFF then 0xFD :: u16ToLe n
  else if n ≤ 0xFFFFFFFF then 0xFE :: u32ToLe n
  else 0xFF :: u64ToLe n

/-- Model of the bitcoin VarInt consensus decoding; returns the value and the
number of bytes consumed.  Non-minimal encodings are rejected. -/
def readVarInt : List Nat → Except ConsensusError (Nat × Nat)
  | [] => .error .ioUnexpectedEof
  | b :: rest =>
    if b = 0xFD then
      match readU16 rest with
      | .ok (v, _) => if v < 0xFD then .error .nonMinimalVarInt else .ok (v, 3)
      | .error e => .error e
    else if b = 0xFE then
      match readU32 rest with
      | .ok (v, _) => if v < 0x10000 then .error .nonMinimalVarInt else .ok (v, 5)
      | .error e => .error e
    else if b = 0xFF then
      match readU64 rest with
      | .ok (v, _) => if v < 0x100000000 then .error .nonMinimalVarInt else .ok (v, 9)
      | .error e => .error e
    else .ok (b, 1)

/-- Full consensus deserialization of a u32: the slice must be consumed
entirely (model of consensus deserialize for u32). -/
def consensusDeserializeU32 (b : List Nat) : Except ConsensusError Nat :=
  match readU32 b with
  | .ok (n, []) => .ok n
  | .ok (_, _ :: _) => .error (.parseFailed notConsumedMsg)
  | .error e => .error e

/-- Model of the consensus encoding of a script: varint length prefix followed
by the raw script bytes. -/
def scriptConsensusEncode (s : List Nat) : List Nat := varIntEncode s.length ++ s

/-- Model of partial consensus decoding of a script (deserialize_partial):
returns the script bytes and the total number of bytes consumed. -/
def readScript (b : List Nat) : Except ConsensusError (List Nat × Nat) :=
  match readVarInt b with
  | .error e => .error e
  | .ok (len, c) =>
    if len ≤ (b.drop c).length then .ok ((b.drop c).take len, c + len)
    else .error .ioUnexpectedEof

/-! ## Leaf versions (model of the external taproot LeafVersion capability) -/

/-- Model of bitcoin taproot LeafVersion: the tapscript version 0xC0 or a
future even version byte. -/
inductive LeafVersion
  | tapScript
  | future (v : Nat)
  deriving DecidableEq

/-- Consensus byte of a leaf version. -/
def LeafVersion.toConsensus : LeafVersion → Nat
  | .tapScript => 0xC0
  | .future v => v

/-- Model of LeafVersion from_consensus: 0xC0 is tapscript, the annex tag 0x50
and every odd byte are rejected, any other even byte is a future version. -/
def leafVersionFromConsensus (v : Nat) : Except Unit LeafVersion :=
  if v = 0xC0 then .ok .tapScript
  else if v = 0x50 then .error ()
  else if v % 2 = 1 then .error ()
  else .ok (.future v)

/-- Leaf versions obtainable from from_consensus on a byte: exactly those that
round-trip through their consensus byte. -/
def leafVersionOk : LeafVersion → Bool
  | .tapScript => true
  | .future v => decide (v % 2 = 0) && decide (v ≠ 0x50) && decide (v ≠ 0xC0) && decide (v < 256)

/-! ## Capability models for cryptographic parsing -/

/-- Model of the external secp256k1 ECDSA signature value: the canonical DER
byte string of the signature. -/
structure SecpEcdsaSignature where
  der : List Nat
  deriving DecidableEq

/-- Model of a strict-DER integer body: nonempty, positive (top bit clear) and
with no redundant leading zero byte. -/
def derIntOk : List Nat → Bool
  | [] => false
  | [x] => decide (x < 128)
  | x :: y :: _ => decide (x < 128) && !(decide (x = 0) && decide (y < 128))

/-- Model of the external secp256k1 strict DER parse capability: a sequence tag
with correct length holding exactly two well-formed integers. -/
def derSigOk (b : List Nat) : Bool :=
  match b with
  | 0x30 :: len :: rest =>
    decide (len = rest.length) &&
    (match rest with
     | 0x02 :: rlen :: rest2 =>
       decide (rlen + 2 ≤ rest2.length) &&
       derIntOk (rest2.take rlen) &&
       (match rest2.drop rlen with
        | 0x02 :: slen :: rest3 => decide (slen = rest3.length) && derIntOk rest3
        | _ => false)
     | _ => false)
  | _ => false

/-- Standard ECDSA sighash flags accepted by from_standard. -/
def ecdsaStdSighash (n : Nat) : Bool :=
  n = 1 || n = 2 || n = 3 || n = 0x81 || n = 0x82 || n = 0x83

/-- Model of bitcoin ecdsa::Error restricted to the variants reachable from
from_slice on a byte string. -/
inductive EcdsaError
  | emptySignature
  | secp256k1
  | sighashType (n : Nat)
  deriving DecidableEq

/-- Model of bitcoin ecdsa::Signature: a secp signature plus a standard
sighash flag. -/
structure EcdsaSignature where
  signature : SecpEcdsaSignature
  sighashType : Nat
  deriving DecidableEq

/-- Model of ecdsa::Signature::from_slice: split off the trailing sighash
byte, validate the flag with from_standard first, then parse the DER body. -/
def ecdsaSigFromSlice (b : List Nat) : Except EcdsaError EcdsaSignature :=
  match b with
  | [] => .error .emptySignature
  | _ :: _ =>
    let der := b.dropLast
    let flag := b.getLastD 0
    if ecdsaStdSighash flag then
      if derSigOk der then .ok ⟨⟨der⟩, flag⟩
      else .error .secp256k1
    else .error (.sighashType flag)

/-- Model of ecdsa::Signature::to_vec: DER bytes followed by the sighash
byte. -/
def ecdsaSigToVec (s : EcdsaSignature) : List Nat := s.signature.der ++ [s.sighashType]

/-- Model of a schnorr signature value: its 64 raw bytes. -/
structure SchnorrSignature where
  bytes : List Nat
  deriving DecidableEq

/-- Taproot sighash flags accepted by from_consensus_u8 (0 is Default). -/
def tapStdSighash (n : Nat) : Bool :=
  n = 0 || n = 1 || n = 2 || n = 3 || n = 0x81 || n = 0x82 || n = 0x83

/-- Model of bitcoin taproot::SigFromSliceError restricted to the variants
reachable from from_slice. -/
inductive TaprootSigError
  | sighashType (n : Nat)
  | invalidSignatureSize (n : Nat)
  | secp256k1
  deriving DecidableEq

/-- Model of bitcoin taproot::Signature: a schnorr signature plus a taproot
sighash flag (0 encodes Default). -/
structure TaprootSignature where
  signature : SchnorrSignature
  sighashType : Nat
  deriving DecidableEq

/-- Model of taproot::Signature::from_slice: 64 bytes give the Default flag,
65 bytes carry an explicit flag byte that is validated before the signature
body, anything else is a size error. -/
def taprootSigFromSlice (b : List Nat) : Except TaprootSigError TaprootSignature :=
  if b.length = 64 then .ok ⟨⟨b⟩, 0⟩
  else if b.length = 65 then
    let flag := b.getLastD 0
    if tapStdSighash flag then .ok ⟨⟨b.dropLast⟩, flag⟩
    else .error (.sighashType flag)
  else .error (.invalidSignatureSize b.length)

/-- Model of taproot::Signature::to_vec: the 64 signature bytes, followed by
the flag byte unless the flag is Default. -/
def taprootSigToVec (s : TaprootSignature) : List Nat :=
  if s.sighashType = 0 then s.signature.bytes else s.signature.bytes ++ [s.sighashType]

/-- Model of the external bitcoin public key capability: the serialized key
bytes, 33 bytes compressed (prefix 2 or 3) or 65 bytes uncompressed
(prefix 4). -/
structure PublicKey where
  bytes : List Nat
  deriving DecidableEq

/-- Byte-shape validity of a serialized bitcoin public key; point validity is
part of the external capability and abstracted to this shape check. -/
def publicKeyBytesOk (b : List Nat) : Bool :=
  (decide (b.length = 33) && (decide (b.headD 0 = 2) || decide (b.headD 0 = 3)))
  || (decide (b.length = 65) && decide (b.headD 0 = 4))

/-- Model of the external compressed secp256k1 public key: 33 serialized
bytes with prefix 2 or 3. -/
structure Secp256k1PublicKey where
  bytes : List Nat
  deriving DecidableEq

/-- Byte-shape validity of a compressed secp256k1 public key. -/
def secpPublicKeyBytesOk (b : List Nat) : Bool :=
  decide (b.length = 33) && (decide (b.headD 0 = 2) || decide (b.headD 0 = 3))

/-- Model of the external x-only public key: its 32 serialized bytes; point
validity is abstracted to the length check of the capability. -/
structure XOnlyPublicKey where
  bytes : List Nat
  deriving DecidableEq

/-- Model of a taproot leaf hash: a 32-byte array. -/
structure TapLeafHash where
  bytes : List Nat
  deriving DecidableEq

/-- Byte-shape validity of a serialized control block: at least 33 bytes, a
whole number of 32-byte merkle nodes of which at most 128, and a first byte
whose leaf-version part is not the annex tag. -/
def controlBlockOk (b : List Nat) : Bool :=
  decide (33 ≤ b.length) && decide ((b.length - 33) % 32 = 0) &&
  decide ((b.length - 33) / 32 ≤ 128) && decide ((b.headD 0 &&& 0xFE) ≠ 0x50)

/-- Model of the external taproot control block: its validated raw bytes,
opaque to this codec beyond the decode capability. -/
structure ControlBlock where
  bytes : List Nat
  deriving DecidableEq

/-! ## Taproot tree builder (model of the external bitcoin taproot capability) -/

/-- Model of a taproot node hash as a free term algebra over the external
hashing capability: leaf hashes, combined node hashes, and the all-zero
constant used by tests. -/
inductive TapNodeHash
  | allZeros
  | leafHash (script : List Nat) (version : LeafVersion)
  | nodeHash (a b : TapNodeHash)
  deriving DecidableEq

/-- Model of bitcoin taproot TapLeaf: a revealed script leaf or a hidden
(pruned) node. -/
inductive TapLeaf
  | script (s : List Nat) (version : LeafVersion)
  | hidden (h : TapNodeHash)
  deriving DecidableEq

/-- Model of a taproot leaf together with its merkle proof branch. -/
structure LeafNode where
  leaf : TapLeaf
  merkleBranch : List TapNodeHash
  deriving DecidableEq

/-- Model of bitcoin taproot NodeInfo: hash of the subtree, its leaves with
their merkle branches, and whether any hidden node occurs below. -/
structure NodeInfo where
  hash : TapNodeHash
  leaves : List LeafNode
  hasHiddenNodes : Bool
  deriving DecidableEq

/-- Model of the builder errors of the external taproot capability. -/
inductive TaprootBuilderError
  | invalidMerkleTreeDepth (d : Nat)
  | nodeNotInDfsOrder
  | overCompleteTree
  deriving DecidableEq

/-- Model of TaprootMerkleBranch push: refuse to grow a branch beyond the
128-node taproot control limit. -/
def pushBranch (l : LeafNode) (h : TapNodeHash) : Except TaprootBuilderError LeafNode :=
  if 128 ≤ l.merkleBranch.length then .error (.invalidMerkleTreeDepth l.merkleBranch.length)
  else .ok ⟨l.leaf, l.merkleBranch ++ [h]⟩

/-- Push a sibling hash onto every branch of a leaf list, failing on the first
over-deep branch. -/
def pushBranchAll : List LeafNode → TapNodeHash → Except TaprootBuilderError (List LeafNode)
  | [], _ => .ok []
  | l :: ls, h =>
    match pushBranch l h with
    | .error e => .error e
    | .ok l2 =>
      match pushBranchAll ls h with
      | .error e => .error e
      | .ok ls2 => .ok (l2 :: ls2)

/-- Model of NodeInfo::combine: hash the pair, extend every merkle branch
with the sibling hash, concatenate the leaves, and propagate the hidden
flag. -/
def NodeInfo.combine (a b : NodeInfo) : Except TaprootBuilderError NodeInfo :=
  match pushBranchAll a.leaves b.hash with
  | .error e => .error e
  | .ok aLeaves =>
    match pushBranchAll b.leaves a.hash with
    | .error e => .error e
    | .ok bLeaves =>
      .ok ⟨.nodeHash a.hash b.hash, aLeaves ++ bLeaves, a.hasHiddenNodes || b.hasHiddenNodes⟩

/-- Unchecked form of NodeInfo::combine, used to state what combine returns
when no branch exceeds the depth limit. -/
def combineNodes (a b : NodeInfo) : NodeInfo :=
  ⟨.nodeHash a.hash b.hash,
   a.leaves.map (fun l => ⟨l.leaf, l.merkleBranch ++ [b.hash]⟩)
     ++ b.leaves.map (fun l => ⟨l.leaf, l.merkleBranch ++ [a.hash]⟩),
   a.hasHiddenNodes || b.hasHiddenNodes⟩

/-- Model of a fresh leaf NodeInfo (new_leaf_with_ver). -/
def NodeInfo.newLeafWithVer (s : List Nat) (v : LeafVersion) : NodeInfo :=
  ⟨.leafHash s v, [⟨.script s v, []⟩], false⟩

/-- Model of a hidden NodeInfo (new_hidden_node). -/
def NodeInfo.newHiddenNode (h : TapNodeHash) : NodeInfo :=
  ⟨h, [⟨.hidden h, []⟩], true⟩

/-- Model of bitcoin TaprootBuilder: the DFS insertion stack of pending
subtrees, indexed by depth. -/
structure TaprootBuilder where
  branch : List (Option NodeInfo)
  deriving DecidableEq

/-- The empty builder (TaprootBuilder::new). -/
def TaprootBuilder.new : TaprootBuilder := ⟨[]⟩

/-- Model of the while loop inside TaprootBuilder::insert: as long as the
stack reaches the insertion depth, pop the pending sibling and combine,
stepping one level up; stop when an empty slot is popped or the stack is
shorter.  Returns the remaining stack, the node to place, and its depth. -/
def insertLoop : Nat → List (Option NodeInfo) → NodeInfo →
    Except TaprootBuilderError (List (Option NodeInfo) × NodeInfo × Nat)
  | depth, branch, node =>
    if branch.length = depth + 1 then
      match branch.getLast? with
      | some (some child) =>
        match depth with
        | 0 => .error .overCompleteTree
        | d + 1 =>
          match NodeInfo.combine child node with
          | .error e => .error e
          | .ok combined => insertLoop d branch.dropLast combined
      | some none => .ok (branch.dropLast, node, depth)
      | none => .ok (branch, node, depth)
    else .ok (branch, node, depth)

/-- Model of TaprootBuilder::insert: depth guard, DFS-order guard, the
combine loop, then padding the stack with empty slots and storing the node at
its depth. -/
def TaprootBuilder.insert (b : TaprootBuilder) (node : NodeInfo) (depth : Nat) :
    Except TaprootBuilderError TaprootBuilder :=
  if 128 < depth then .error (.invalidMerkleTreeDepth depth)
  else if depth + 1 < b.branch.length then .error .nodeNotInDfsOrder
  else
    match insertLoop depth b.branch node with
    | .error e => .error e
    | .ok (br, nd, d) =>
      let br2 := if br.length < d + 1 then br ++ List.replicate (d + 1 - br.length) none else br
      .ok ⟨br2.set d (some nd)⟩

/-- Model of TaprootBuilder::add_leaf_with_ver. -/
def TaprootBuilder.addLeafWithVer (b : TaprootBuilder) (depth : Nat) (s : List Nat)
    (v : LeafVersion) : Except TaprootBuilderError TaprootBuilder :=
  b.insert (.newLeafWithVer s v) depth

/-- Model of TaprootBuilder::add_hidden_node. -/
def TaprootBuilder.addHiddenNode (b : TaprootBuilder) (depth : Nat) (h : TapNodeHash) :
    Except TaprootBuilderError TaprootBuilder :=
  b.insert (.newHiddenNode h) depth

/-- Model of taproot::IncompleteBuilderError: the two distinct finalization
failures. -/
inductive IncompleteBuilderError
  | notFinalized (b : TaprootBuilder)
  | hiddenParts (b : TaprootBuilder)
  deriving DecidableEq

/-- Model of bitcoin TapTree: a finalized NodeInfo with no hidden parts. -/
structure TapTree where
  info : NodeInfo
  deriving DecidableEq

/-- Model of TaprootBuilder::try_into_taptree (TapTree::try_from): succeeds
only on a single finished root without hidden nodes. -/
def TaprootBuilder.tryIntoTapTree (b : TaprootBuilder) : Except IncompleteBuilderError TapTree :=
  match b.branch.getLast? with
  | some (some node) =>
    if 1 < b.branch.length then .error (.notFinalized b)
    else if node.hasHiddenNodes then .error (.hiddenParts b)
    else .ok ⟨node⟩
  | _ => .error (.notFinalized b)

/-! ## The error taxonomy of src/serialize.rs -/

/-- Ways that deserializing a PSBT value might fail (the Error enum of
src/serialize.rs, with external error payloads replaced by their models). -/
inductive Error
  | notEnoughData
  | invalidProprietaryKey
  | noMorePairs
  | nonStandardSighashType (n : Nat)
  | invalidHash
  | consensusEncoding (e : ConsensusError)
  | invalidPublicKey
  | invalidSecp256k1PublicKey
  | invalidXOnlyPublicKey
  | invalidEcdsaSignature (e : EcdsaError)
  | invalidTaprootSignature (e : TaprootSigError)
  | invalidControlBlock
  | invalidLeafVersion
  | taproot (s : String)
  | tapTree (e : IncompleteBuilderError)
  | partialDataConsumption
  | lockTime
  | unsupportedVersion
  deriving DecidableEq

/-- Message of the taproot error used when a version byte is missing. -/
def invalidBuilderMsg : String := "Invalid Taproot Builder"

/-- Message of the taproot error used when a leaf insertion fails. -/
def dfsOrderMsg : String := "Tree not in DFS order"

/-! ## The Serialize and Deserialize implementations of src/serialize.rs -/

/-- A script buffer is its raw byte content. -/
abbrev ScriptBuf := List Nat

/-- Serialize for ScriptBuf: the raw bytes. -/
def serializeScriptBuf (s : ScriptBuf) : List Nat := s

/-- Deserialize for ScriptBuf: total, every byte string is a script. -/
def deserializeScriptBuf (b : List Nat) : Except Error ScriptBuf := .ok b

/-- Serialize for PublicKey: write_into of the key bytes. -/
def serializePublicKey (k : PublicKey) : List Nat := k.bytes

/-- Deserialize for PublicKey: from_slice, wrapping failures as
InvalidPublicKey. -/
def deserializePublicKey (b : List Nat) : Except Error PublicKey :=
  if publicKeyBytesOk b then .ok ⟨b⟩ else .error .invalidPublicKey

/-- Serialize for secp256k1::PublicKey: the compressed serialization. -/
def serializeSecpPublicKey (k : Secp256k1PublicKey) : List Nat := k.bytes

/-- Deserialize for secp256k1::PublicKey: from_slice, wrapping failures as
InvalidSecp256k1PublicKey. -/
def deserializeSecpPublicKey (b : List Nat) : Except Error Secp256k1PublicKey :=
  if secpPublicKeyBytesOk b then .ok ⟨b⟩ else .error .invalidSecp256k1PublicKey

/-- Serialize for ecdsa::Signature: to_vec. -/
def serializeEcdsaSignature (s : EcdsaSignature) : List Nat := ecdsaSigToVec s

/-- Deserialize for ecdsa::Signature: from_slice with the error mapping of
src/serialize.rs, where a sighash-type failure becomes the distinct
NonStandardSighashType classification. -/
def deserializeEcdsaSignature (b : List Nat) : Except Error EcdsaSignature :=
  match ecdsaSigFromSlice b with
  | .ok s => .ok s
  | .error (.sighashType n) => .error (.nonStandardSighashType n)
  | .error e => .error (.invalidEcdsaSignature e)

/-- A key source pairs a 4-byte master fingerprint with a derivation path of
32-bit child indices. -/
structure KeySource where
  fingerprint : List Nat
  path : List Nat
  deriving DecidableEq

/-- Serialize for KeySource: fingerprint bytes then each index in consensus
(little-endian) encoding. -/
def serializeKeySource (ks : KeySource) : List Nat :=
  ks.fingerprint ++ ks.path.flatMap u32ToLe

/-- Decode 32-bit indices from a byte string until it is exhausted (the while
loop of Deserialize for KeySource). -/
def readU32Seq : List Nat → Except ConsensusError (List Nat)
  | [] => .ok []
  | b0 :: b1 :: b2 :: b3 :: rest =>
    match readU32Seq rest with
    | .ok ns => .ok (leToU32 b0 b1 b2 b3 :: ns)
    | .error e => .error e
  | _ => .error .ioUnexpectedEof

/-- Deserialize for KeySource: fewer than 4 bytes is NotEnoughData, otherwise
the first 4 bytes are the fingerprint and the rest is read as consecutive
32-bit indices. -/
def deserializeKeySource (b : List Nat) : Except Error KeySource :=
  if b.length < 4 then .error .notEnoughData
  else
    match readU32Seq (b.drop 4) with
    | .ok path => .ok ⟨b.take 4, path⟩
    | .error e => .error (.consensusEncoding e)

/-- Serialize for u32: consensus little-endian bytes. -/
def serializeU32 (n : Nat) : List Nat := u32ToLe n

/-- Deserialize for u32: exact consensus deserialization, failures wrapped
into the ConsensusEncoding kind. -/
def deserializeU32 (b : List Nat) : Except Error Nat :=
  match consensusDeserializeU32 b with
  | .ok n => .ok n
  | .error e => .error (.consensusEncoding e)

/-- A sequence number is a 32-bit integer newtype. -/
abbrev Sequence := Nat

/-- Serialize for Sequence: consensus bytes of the underlying u32. -/
def serializeSequence (n : Sequence) : List Nat := u32ToLe n

/-- Deserialize for Sequence: exact consensus deserialization of a u32. -/
def deserializeSequence (b : List Nat) : Except Error Sequence :=
  match consensusDeserializeU32 b with
  | .ok n => .ok n
  | .error e => .error (.consensusEncoding e)

/-- Modelled from the spec: PsbtSighashType (crate sighash_type module, not
under src/) wraps an arbitrary u32 sighash value with no range restriction. -/
structure PsbtSighashType where
  inner : Nat
  deriving DecidableEq

/-- Serialize for PsbtSighashType: consensus bytes of the inner u32. -/
def serializePsbtSighashType (t : PsbtSighashType) : List Nat := u32ToLe t.inner

/-- Deserialize for PsbtSighashType: parse the bytes as a u32 and accept any
value. -/
def deserializePsbtSighashType (b : List Nat) : Except Error PsbtSighashType :=
  match consensusDeserializeU32 b with
  | .ok n => .ok ⟨n⟩
  | .error e => .error (.consensusEncoding e)

/-- Serialize for XOnlyPublicKey: the 32 key bytes. -/
def serializeXOnlyPublicKey (k : XOnlyPublicKey) : List Nat := k.bytes

/-- Deserialize for XOnlyPublicKey: from_slice, any failure becomes
InvalidXOnlyPublicKey. -/
def deserializeXOnlyPublicKey (b : List Nat) : Except Error XOnlyPublicKey :=
  if b.length = 32 then .ok ⟨b⟩ else .error .invalidXOnlyPublicKey

/-- Serialize for taproot::Signature: to_vec. -/
def serializeTaprootSignature (s : TaprootSignature) : List Nat := taprootSigToVec s

/-- Deserialize for taproot::Signature: from_slice with the error mapping of
src/serialize.rs. -/
def deserializeTaprootSignature (b : List Nat) : Except Error TaprootSignature :=
  match taprootSigFromSlice b with
  | .ok s => .ok s
  | .error (.sighashType n) => .error (.nonStandardSighashType n)
  | .error e => .error (.invalidTaprootSignature e)

/-- Modelled from the spec: hash deserialization (the
v2_impl_psbt_hash_de_serialize macro, not under src/) parses a fixed-width
hash from a slice, mapping a wrong-length slice to the invalid-hash kind. -/
def deserializeTapLeafHash (b : List Nat) : Except Error TapLeafHash :=
  if b.length = 32 then .ok ⟨b⟩ else .error .invalidHash

/-- Serialize for TapLeafHash: its 32 raw bytes. -/
def serializeTapLeafHash (h : TapLeafHash) : List Nat := h.bytes

/-- Serialize for the (XOnlyPublicKey, TapLeafHash) pair: key bytes then hash
bytes. -/
def serializeXOnlyLeafHash (p : XOnlyPublicKey × TapLeafHash) : List Nat :=
  p.1.bytes ++ p.2.bytes

/-- Deserialize for the (XOnlyPublicKey, TapLeafHash) pair: fewer than 32
bytes is NotEnoughData, otherwise the first 32 bytes are the key and the rest
the leaf hash. -/
def deserializeXOnlyLeafHash (b : List Nat) : Except Error (XOnlyPublicKey × TapLeafHash) :=
  if b.length < 32 then .error .notEnoughData
  else
    match deserializeXOnlyPublicKey (b.take 32) with
    | .error e => .error e
    | .ok k =>
      match deserializeTapLeafHash (b.drop 32) with
      | .error e => .error e
      | .ok h => .ok (k, h)

/-- Serialize for ControlBlock: its raw bytes. -/
def serializeControlBlock (c : ControlBlock) : List Nat := c.bytes

/-- Deserialize for ControlBlock: decode, any failure becomes
InvalidControlBlock. -/
def deserializeControlBlock (b : List Nat) : Except Error ControlBlock :=
  if controlBlockOk b then .ok ⟨b⟩ else .error .invalidControlBlock

/-- Serialize for the (ScriptBuf, LeafVersion) pair: script bytes followed by
the single leaf-version byte. -/
def serializeScriptLeafVersion (p : ScriptBuf × LeafVersion) : List Nat :=
  p.1 ++ [p.2.toConsensus]

/-- Deserialize for the (ScriptBuf, LeafVersion) pair: empty input is
NotEnoughData; otherwise the slice is split at length - 1, the last byte must
be a recognized leaf version. -/
def deserializeScriptLeafVersion (b : List Nat) : Except Error (ScriptBuf × LeafVersion) :=
  if b.length = 0 then .error .notEnoughData
  else
    match deserializeScriptBuf (b.take (b.length - 1)) with
    | .error e => .error e
    | .ok s =>
      match leafVersionFromConsensus (b.getLastD 0) with
      | .ok v => .ok (s, v)
      | .error _ => .error .invalidLeafVersion

/-- Consensus encoding of a TapLeafHash list: varint count then the raw
32-byte hashes. -/
def encodeTapLeafHashList (hs : List TapLeafHash) : List Nat :=
  varIntEncode hs.length ++ hs.flatMap (·.bytes)

/-- Read a given number of 32-byte leaf hashes, returning them and the number
of bytes consumed. -/
def readTapLeafHashes : Nat → List Nat → Except ConsensusError (List TapLeafHash × Nat)
  | 0, _ => .ok ([], 0)
  | n + 1, b =>
    if 32 ≤ b.length then
      match readTapLeafHashes n (b.drop 32) with
      | .ok (hs, c) => .ok (⟨b.take 32⟩ :: hs, c + 32)
      | .error e => .error e
    else .error .ioUnexpectedEof

/-- Partial consensus decoding of a TapLeafHash list: varint count then that
many hashes; returns the list and the number of bytes consumed. -/
def readTapLeafHashList (b : List Nat) : Except ConsensusError (List TapLeafHash × Nat) :=
  match readVarInt b with
  | .error e => .error e
  | .ok (n, c) =>
    match readTapLeafHashes n (b.drop c) with
    | .ok (hs, c2) => .ok (hs, c + c2)
    | .error e => .error e

/-- Serialize for the (Vec TapLeafHash, KeySource) pair: consensus-encoded
hash list then the key source bytes. -/
def serializeLeafHashesKeySource (p : List TapLeafHash × KeySource) : List Nat :=
  encodeTapLeafHashList p.1 ++ serializeKeySource p.2

/-- Deserialize for the (Vec TapLeafHash, KeySource) pair: partial decode of
the self-delimiting list, then the key source from the remaining bytes. -/
def deserializeLeafHashesKeySource (b : List Nat) :
    Except Error (List TapLeafHash × KeySource) :=
  match readTapLeafHashList b with
  | .error e => .error (.consensusEncoding e)
  | .ok (hs, consumed) =>
    match deserializeKeySource (b.drop consumed) with
    | .error e => .error e
    | .ok ks => .ok (hs, ks)

/-- Serialize for TapTree: for every script leaf in DFS order emit one depth
byte (the merkle branch length), one leaf-version byte, and the
length-prefixed script. -/
def serializeTapTree (t : TapTree) : List Nat :=
  t.info.leaves.flatMap fun l =>
    match l.leaf with
    | .script s v => l.merkleBranch.length :: v.toConsensus :: scriptConsensusEncode s
    | .hidden _ => []

/-- Model of the deserialization loop for TapTree: read a depth byte, a
version byte (missing byte is the invalid-builder taproot error), a
length-prefixed script, validate the leaf version, insert into the builder
(failure is the DFS-order taproot error).  The fuel argument bounds the
number of iterations; it is always called with the byte length, and every
iteration consumes at least two bytes, so the fuel never runs out. -/
def deserializeTapTreeLoop : Nat → TaprootBuilder → List Nat → Except Error TaprootBuilder
  | _, builder, [] => .ok builder
  | 0, builder, _ :: _ => .ok builder
  | fuel + 1, builder, depth :: rest =>
    match rest with
    | [] => .error (.taproot invalidBuilderMsg)
    | version :: rest2 =>
      match readScript rest2 with
      | .error e => .error (.consensusEncoding e)
      | .ok (script, consumed) =>
        match leafVersionFromConsensus version with
        | .error _ => .error .invalidLeafVersion
        | .ok lv =>
          match builder.addLeafWithVer depth script lv with
          | .error _ => .error (.taproot dfsOrderMsg)
          | .ok b2 => deserializeTapTreeLoop fuel b2 (rest2.drop consumed)

/-- Deserialize for TapTree: run the leaf loop from the empty builder over
the whole slice, then finalize the builder, wrapping the finalization failure
into the TapTree error kind. -/
def deserializeTapTree (b : List Nat) : Except Error TapTree :=
  match deserializeTapTreeLoop b.length TaprootBuilder.new b with
  | .error e => .error e
  | .ok builder =>
    match builder.tryIntoTapTree with
    | .ok t => .ok t
    | .error e => .error (.tapTree e)

/-! ## Shapes of taproot trees constructible through the builder API -/

/-- Binary tree of script leaves, used to range over the taproot trees
constructible through the public builder API. -/
inductive TapShape
  | leaf (s : List Nat) (v : LeafVersion)
  | node (l r : TapShape)
  deriving DecidableEq

/-- NodeInfo denoted by a shape: a leaf node, or the combination of the two
children. -/
def nodeOf : TapShape → NodeInfo
  | .leaf s v => .newLeafWithVer s v
  | .node l r => combineNodes (nodeOf l) (nodeOf r)

/-- Structural bound of a shape placed at a given depth: every leaf sits at
depth at most 128, carries a leaf version obtainable from a byte, and has a
script short enough for a usize length (below 2 to the 64). -/
def shapeOk : TapShape → Nat → Bool
  | .leaf s v, d =>
    decide (d ≤ 128) && leafVersionOk v && decide (s.length < 18446744073709551616)
  | .node l r, d => shapeOk l (d + 1) && shapeOk r (d + 1)

/-- DFS flattening of a shape at a depth: the (depth, script, version)
triples of its leaves in left-to-right order. -/
def shapeFlat : TapShape → Nat → List (Nat × List Nat × LeafVersion)
  | .leaf s v, d => [(d, s, v)]
  | .node l r, d => shapeFlat l (d + 1) ++ shapeFlat r (d + 1)

/-- Wire bytes of one (depth, script, version) leaf record. -/
def encodeTriple (t : Nat × List Nat × LeafVersion) : List Nat :=
  t.1 :: t.2.2.toConsensus :: scriptConsensusEncode t.2.1

/-- Wire bytes of a DFS leaf record sequence. -/
def encodeTriples (ts : List (Nat × List Nat × LeafVersion)) : List Nat :=
  ts.flatMap encodeTriple

/-- Replay of a DFS leaf record sequence through the builder, one
add_leaf_with_ver call per record. -/
def replayTriples (b : TaprootBuilder) : List (Nat × List Nat × LeafVersion) →
    Except TaprootBuilderError TaprootBuilder
  | [] => .ok b
  | (d, s, v) :: ts =>
    match b.addLeafWithVer d s v with
    | .error e => .error e
    | .ok b2 => replayTriples b2 ts

/-- Projection of a leaf node to its (depth, script, version) record; hidden
leaves (which never occur under a shape) project to a dummy record. -/
def leafTriple (l : LeafNode) : Nat × List Nat × LeafVersion :=
  match l.leaf with
  | .script s v => (l.merkleBranch.length, s, v)
  | .hidden _ => (l.merkleBranch.length, [], .tapScript)

/-- Depth bump of a leaf record. -/
def bumpTriple (t : Nat × List Nat × LeafVersion) : Nat × List Nat × LeafVersion :=
  (t.1 + 1, t.2)

/-- Builder chain of the hidden-node scenario: three script leaves at depth 2
followed by a hidden node at depth 3. -/
def hiddenScenarioChain : Except TaprootBuilderError TaprootBuilder := do
  let b1 ← TaprootBuilder.new.addLeafWithVer 2 [0x51] .tapScript
  let b2 ← b1.addLeafWithVer 2 [0x52] .tapScript
  let b3 ← b2.addLeafWithVer 2 [0x53] .tapScript
  b3.addHiddenNode 3 .allZeros

/-- Shape of the round-trip test scenario: leaves at depths 2, 2, 2, 3, 3
with the last leaf carrying script b9 and version 0xC2. -/
def sampleShape : TapShape :=
  .node (.node (.leaf [0x51] .tapScript) (.leaf [0x52] .tapScript))
        (.node (.leaf [0x53] .tapScript)
               (.node (.leaf [0x54] .tapScript) (.leaf [0xb9] (.future 0xC2))))

/-! ## Helper lemmas about the byte readers -/

lemma readU32_eq {b : List Nat} (h : 4 ≤ b.length) :
    readU32 b = .ok (leToU32 (b.headD 0) ((b.drop 1).headD 0) ((b.drop 2).headD 0)
      ((b.drop 3).headD 0), b.drop 4) := by
  rcases b with _ | ⟨b0, _ | ⟨b1, _ | ⟨b2, _ | ⟨b3, rest⟩⟩⟩⟩ <;>
    first
      | rfl
      | (exfalso; simp only [List.length_cons, List.length_nil] at h; omega)

lemma readU32_short {b : List Nat} (h : b.length < 4) :
    readU32 b = .error .ioUnexpectedEof := by
  rcases b with _ | ⟨b0, _ | ⟨b1, _ | ⟨b2, _ | ⟨b3, rest⟩⟩⟩⟩ <;>
    first
      | rfl
      | (exfalso; simp only [List.length_cons, List.length_nil] at h; omega)

lemma readU32Seq_len4 {l : List Nat} (h : l.length = 4) :
    readU32Seq l = .ok [leToU32 (l.headD 0) ((l.drop 1).headD 0) ((l.drop 2).headD 0)
      ((l.drop 3).headD 0)] := by
  rcases l with _ | ⟨b0, _ | ⟨b1, _ | ⟨b2, _ | ⟨b3, _ | ⟨b4, rest⟩⟩⟩⟩⟩ <;>
    first
      | rfl
      | (exfalso; simp only [List.length_cons, List.length_nil] at h; omega)

/-! ## C10: empty input to the TapTree decoder -/

/-- C10: deserializing a TapTree from the empty slice is not a length
failure: the decode loop runs zero times and the error comes from finalizing
the empty builder, with the incomplete-tree (TapTree) error kind. -/
theorem claim10_taptree_empty :
    deserializeTapTree [] = .error (.tapTree (.notFinalized TaprootBuilder.new)) ∧
    deserializeTapTree [] ≠ .error .notEnoughData :=
  ⟨rfl, by decide⟩

/-! ## C8: permissive sighash-type decoding -/

/-- C8: sighash-type decoding is permissive at the byte level: every 4-byte
input parses as the little-endian u32 with no range check against known
flags; in particular the bytes 0xDE 0 0 0 decode without error. -/
theorem claim8_sighash_permissive :
    (∀ b : List Nat, b.length = 4 →
      deserializePsbtSighashType b =
        .ok ⟨leToU32 (b.headD 0) ((b.drop 1).headD 0) ((b.drop 2).headD 0)
          ((b.drop 3).headD 0)⟩) ∧
    deserializePsbtSighashType [0xDE, 0, 0, 0] = .ok ⟨0xDE⟩ := by
  constructor
  · intro b hb
    have h4 : 4 ≤ b.length := hb.ge
    have hd : b.drop 4 = [] := List.drop_eq_nil_of_le hb.le
    simp [deserializePsbtSighashType, consensusDeserializeU32, readU32_eq h4, hd]
  · decide

/-- Witness for C8 at a concrete 4-byte input. -/
theorem claim8_sighash_permissive_witness :
    deserializePsbtSighashType [1, 2, 3, 4] = .ok ⟨leToU32 1 2 3 4⟩ := by
  simpa using claim8_sighash_permissive.1 [1, 2, 3, 4] (by decide)

/-! ## C4: length sensitivity of fixed-width types -/

/-- C4 counterexample: a 3-byte input to the u32 deserializer fails with the
wrapped consensus-encoding kind, not with NotEnoughData as the claim
states. -/
theorem claim4_counterexample :
    deserializeU32 [0, 0, 0] = .error (.consensusEncoding .ioUnexpectedEof) ∧
    deserializeU32 [0, 0, 0] ≠ .error .notEnoughData :=
  ⟨rfl, by decide⟩

/-- C4 amended: short inputs to fixed-width decoders fail, but the error kind
is per type: 32-bit integers report the wrapped consensus-encoding kind,
hashes the invalid-hash kind, and only the key source reports NotEnoughData
for its fingerprint; an input of exactly the required width decodes
successfully for these types, so the length kind never occurs at the exact
width. -/
theorem claim4_amended :
    (∀ b : List Nat, b.length < 4 →
      deserializeU32 b = .error (.consensusEncoding .ioUnexpectedEof)) ∧
    (∀ b : List Nat, b.length < 32 → deserializeTapLeafHash b = .error .invalidHash) ∧
    (∀ b : List Nat, b.length < 4 → deserializeKeySource b = .error .notEnoughData) ∧
    (∀ b : List Nat, b.length = 4 → ∃ n, deserializeU32 b = .ok n) ∧
    (∀ b : List Nat, b.length = 32 → ∃ h, deserializeTapLeafHash b = .ok h) := by
  refine ⟨?_, ?_, ?_, ?_, ?_⟩
  · intro b hb
    simp [deserializeU32, consensusDeserializeU32, readU32_short hb]
  · intro b hb
    simp [deserializeTapLeafHash, show b.length ≠ 32 from by omega]
  · intro b hb
    simp [deserializeKeySource, hb]
  · intro b hb
    have h4 : 4 ≤ b.length := hb.ge
    have hd : b.drop 4 = [] := List.drop_eq_nil_of_le hb.le
    refine ⟨leToU32 (b.headD 0) ((b.drop 1).headD 0) ((b.drop 2).headD 0)
      ((b.drop 3).headD 0), ?_⟩
    simp [deserializeU32, consensusDeserializeU32, readU32_eq h4, hd]
  · intro b hb
    exact ⟨⟨b⟩, by simp [deserializeTapLeafHash, hb]⟩

/-- Witness for C4 amended at concrete inputs. -/
theorem claim4_amended_witness :
    deserializeU32 [7, 7, 7] = .error (.consensusEncoding .ioUnexpectedEof) ∧
    deserializeTapLeafHash [1] = .error .invalidHash ∧
    deserializeKeySource [9] = .error .notEnoughData ∧
    (∃ n, deserializeU32 [1, 0, 0, 0] = .ok n) ∧
    (∃ h, deserializeTapLeafHash (List.replicate 32 0) = .ok h) :=
  ⟨claim4_amended.1 _ (by decide), claim4_amended.2.1 _ (by decide),
   claim4_amended.2.2.1 _ (by decide), claim4_amended.2.2.2.1 _ (by decide),
   claim4_amended.2.2.2.2 _ (by decide)⟩

/-! ## C6: key source decoding -/

/-- C6: key-source decoding: fewer than 4 bytes is NotEnoughData; with at
least 4 bytes the first 4 become the fingerprint and the remainder is decoded
as consecutive 32-bit indices until the slice is exhausted; an 8-byte input
succeeds with a derivation path of length 1. -/
theorem claim6_keysource :
    (∀ b : List Nat, b.length < 4 → deserializeKeySource b = .error .notEnoughData) ∧
    (∀ b : List Nat, 4 ≤ b.length →
      deserializeKeySource b =
        match readU32Seq (b.drop 4) with
        | .ok path => .ok ⟨b.take 4, path⟩
        | .error e => .error (.consensusEncoding e)) ∧
    (∀ b : List Nat, b.length = 8 →
      ∃ i, deserializeKeySource b = .ok ⟨b.take 4, [i]⟩) := by
  refine ⟨?_, ?_, ?_⟩
  · intro b hb
    simp [deserializeKeySource, hb]
  · intro b hb
    simp [deserializeKeySource, Nat.not_lt.mpr hb]
  · intro b hb
    have hlen : (b.drop 4).length = 4 := by simp [List.length_drop, hb]
    refine ⟨leToU32 ((b.drop 4).headD 0) (((b.drop 4).drop 1).headD 0)
      (((b.drop 4).drop 2).headD 0) (((b.drop 4).drop 3).headD 0), ?_⟩
    simp [deserializeKeySource, Nat.not_lt.mpr (show 4 ≤ b.length by omega),
      readU32Seq_len4 hlen]

/-- Witness for C6 at concrete inputs, including the 8-byte scenario. -/
theorem claim6_keysource_witness :
    deserializeKeySource [1, 2, 3] = .error .notEnoughData ∧
    deserializeKeySource [1, 2, 3, 4, 5, 6] =
      (match readU32Seq ([1, 2, 3, 4, 5, 6].drop 4) with
       | .ok path => .ok ⟨[1, 2, 3, 4, 5, 6].take 4, path⟩
       | .error e => .error (.consensusEncoding e)) ∧
    (∃ i, deserializeKeySource [1, 2, 3, 4, 5, 0, 0, 0] = .ok ⟨[1, 2, 3, 4], [i]⟩) := by
  refine ⟨claim6_keysource.1 _ (by decide), claim6_keysource.2.1 _ (by decide), ?_⟩
  simpa using claim6_keysource.2.2 [1, 2, 3, 4, 5, 0, 0, 0] (by decide)

/-! ## C7: the (script, leaf-version) pair codec -/

/-- C7: the (script, leaf-version) pair codec: serialization appends exactly
one trailing leaf-version byte to the script bytes; deserialization rejects
empty input with NotEnoughData, splits every nonempty input at length - 1,
rejects an unrecognized trailing byte with InvalidLeafVersion; the concrete
scenario (script 0x51, version 0xC0) round-trips with the version byte as the
final byte of the encoding. -/
theorem claim7_script_leaf_pair :
    (∀ (s : ScriptBuf) (v : LeafVersion),
      serializeScriptLeafVersion (s, v) = s ++ [v.toConsensus]) ∧
    deserializeScriptLeafVersion [] = .error .notEnoughData ∧
    (∀ (b : List Nat) (v : LeafVersion), b ≠ [] →
      leafVersionFromConsensus (b.getLastD 0) = .ok v →
      deserializeScriptLeafVersion b = .ok (b.take (b.length - 1), v)) ∧
    (∀ b : List Nat, b ≠ [] →
      leafVersionFromConsensus (b.getLastD 0) = .error () →
      deserializeScriptLeafVersion b = .error .invalidLeafVersion) ∧
    deserializeScriptLeafVersion (serializeScriptLeafVersion ([0x51], .tapScript)) =
      .ok ([0x51], .tapScript) ∧
    (serializeScriptLeafVersion ([0x51], .tapScript)).getLastD 0 = 0xC0 := by
  refine ⟨fun s v => rfl, rfl, ?_, ?_, by decide, by decide⟩
  · intro b v hb hv
    have h0 : b.length ≠ 0 := fun h => hb (List.length_eq_zero.mp h)
    unfold deserializeScriptLeafVersion
    rw [if_neg h0]
    simp only [deserializeScriptBuf]
    rw [hv]
  · intro b hb hv
    have h0 : b.length ≠ 0 := fun h => hb (List.length_eq_zero.mp h)
    unfold deserializeScriptLeafVersion
    rw [if_neg h0]
    simp only [deserializeScriptBuf]
    rw [hv]

/-- Witness for C7 at concrete inputs. -/
theorem claim7_script_leaf_pair_witness :
    deserializeScriptLeafVersion [0x51, 0x52, 0xC0] = .ok ([0x51, 0x52], .tapScript) ∧
    deserializeScriptLeafVersion [0x51, 0x50] = .error .invalidLeafVersion := by
  constructor
  · simpa using claim7_script_leaf_pair.2.2.1 [0x51, 0x52, 0xC0] .tapScript
      (by decide) (by decide)
  · exact claim7_script_leaf_pair.2.2.2.1 [0x51, 0x50] (by decide) (by decide)

/-! ## C9: total script decoding -/

/-- C9: script deserialization is total: every byte string, including the
empty one, decodes to a script whose serialized bytes are exactly the input;
consequently a failure of the pair decoder is never script-sourced — only
the length or leaf-version checks can fail. -/
theorem claim9_script_total :
    (∀ b : List Nat, deserializeScriptBuf b = .ok b ∧ serializeScriptBuf b = b) ∧
    (∀ (b : List Nat) (e : Error), deserializeScriptLeafVersion b = .error e →
      e = .notEnoughData ∨ e = .invalidLeafVersion) := by
  refine ⟨fun b => ⟨rfl, rfl⟩, ?_⟩
  intro b e h
  unfold deserializeScriptLeafVersion at h
  split at h
  · left
    exact (Except.error.inj h).symm
  · simp only [deserializeScriptBuf] at h
    split at h
    · exact absurd h (by simp)
    · right
      exact (Except.error.inj h).symm

/-- Witness for C9 at concrete inputs. -/
theorem claim9_script_total_witness :
    (deserializeScriptBuf [0, 1, 2] = .ok [0, 1, 2] ∧ serializeScriptBuf [0, 1, 2] = [0, 1, 2]) ∧
    (Error.notEnoughData = .notEnoughData ∨ Error.notEnoughData = .invalidLeafVersion) :=
  ⟨(claim9_script_total.1 [0, 1, 2]), claim9_script_total.2 [] _ rfl⟩

/-! ## C3: ECDSA sighash classification -/

lemma ecdsaSigFromSlice_ne_nil {b : List Nat} (hb : b ≠ []) :
    ecdsaSigFromSlice b =
      if ecdsaStdSighash (b.getLastD 0) then
        if derSigOk b.dropLast then .ok ⟨⟨b.dropLast⟩, b.getLastD 0⟩
        else .error .secp256k1
      else .error (.sighashType (b.getLastD 0)) := by
  cases b with
  | nil => exact absurd rfl hb
  | cons x xs => rfl

/-- C3: ECDSA signature decoding classifies any non-empty byte string with
an unrecognized trailing flag as the distinct NonStandardSighashType error
carrying the flag value (the flag is validated before the DER body), decodes
successfully when the trailing flag is recognized and the DER body is valid,
and reports signature-component failures (empty input, invalid DER data
under a recognized flag) as the terminal InvalidEcdsaSignature. -/
theorem claim3_ecdsa_sighash_classification :
    (∀ (rest : List Nat) (flag : Nat), ecdsaStdSighash flag = false →
      deserializeEcdsaSignature (rest ++ [flag]) = .error (.nonStandardSighashType flag)) ∧
    (∀ (der : List Nat) (flag : Nat), derSigOk der = true → ecdsaStdSighash flag = true →
      deserializeEcdsaSignature (der ++ [flag]) = .ok ⟨⟨der⟩, flag⟩) ∧
    deserializeEcdsaSignature [] = .error (.invalidEcdsaSignature .emptySignature) ∧
    (∀ b : List Nat, b ≠ [] → ecdsaStdSighash (b.getLastD 0) = true →
      derSigOk b.dropLast = false →
      deserializeEcdsaSignature b = .error (.invalidEcdsaSignature .secp256k1)) := by
  refine ⟨?_, ?_, rfl, ?_⟩
  · intro rest flag hflag
    have hne : rest ++ [flag] ≠ [] := by simp
    unfold deserializeEcdsaSignature
    rw [ecdsaSigFromSlice_ne_nil hne]
    simp [List.getLastD_concat, hflag]
  · intro der flag hder hflag
    have hne : der ++ [flag] ≠ [] := by simp
    unfold deserializeEcdsaSignature
    rw [ecdsaSigFromSlice_ne_nil hne]
    simp [List.dropLast_concat, List.getLastD_concat, hder, hflag]
  · intro b hb hflag hder
    unfold deserializeEcdsaSignature
    rw [ecdsaSigFromSlice_ne_nil hb]
    rw [if_pos hflag, if_neg (by simp [hder])]

/-- Witness for C3 at concrete inputs: a bad DER body with the non-standard
flag 0x99 still classifies as the non-standard sighash, a minimal DER body
with flag 1 decodes, and a bad DER body under the standard flag 1 is the
terminal signature failure. -/
theorem claim3_ecdsa_sighash_classification_witness :
    deserializeEcdsaSignature ([] ++ [0x99]) = .error (.nonStandardSighashType 0x99) ∧
    deserializeEcdsaSignature ([0x30, 6, 2, 1, 1, 2, 1, 1] ++ [1]) =
      .ok ⟨⟨[0x30, 6, 2, 1, 1, 2, 1, 1]⟩, 1⟩ ∧
    deserializeEcdsaSignature [0x99, 1] = .error (.invalidEcdsaSignature .secp256k1) :=
  ⟨claim3_ecdsa_sighash_classification.1 _ _ (by decide),
   claim3_ecdsa_sighash_classification.2.1 _ _ (by decide) (by decide),
   claim3_ecdsa_sighash_classification.2.2.2 _ (by decide) (by decide) (by decide)⟩

/-! ## C5: hidden nodes are accepted by the builder but rejected at
conversion -/

/-- C5: the builder accepts hidden (pruned) nodes during construction, but a
builder whose stack contains a hidden node can never convert to the public
TapTree type; in particular the three-leaf chain at depths 2,2,2 extended
with a hidden node at depth 3 is accepted by the builder and then fails
conversion. -/
theorem claim5_hidden_rejected :
    (∀ b : TaprootBuilder,
      (∃ ni : NodeInfo, some ni ∈ b.branch ∧ ni.hasHiddenNodes = true) →
      ∀ t : TapTree, b.tryIntoTapTree ≠ .ok t) ∧
    (∃ b : TaprootBuilder, hiddenScenarioChain = .ok b ∧
      ∀ t : TapTree, b.tryIntoTapTree ≠ .ok t) := by
  have hgen : ∀ b : TaprootBuilder,
      (∃ ni : NodeInfo, some ni ∈ b.branch ∧ ni.hasHiddenNodes = true) →
      ∀ t : TapTree, b.tryIntoTapTree ≠ .ok t := by
    rintro b ⟨ni, hmem, hhid⟩ t h
    unfold TaprootBuilder.tryIntoTapTree at h
    split at h
    next node heq =>
      split at h
      · exact absurd h (by simp)
      next hlen =>
        split at h
        · exact absurd h (by simp)
        next hnothid =>
          have hne : b.branch ≠ [] := by
            intro hnil
            rw [hnil] at heq
            exact Option.noConfusion heq
          have h1 : b.branch.length = 1 := by
            have := List.length_pos.mpr hne
            omega
          obtain ⟨a, ha⟩ := List.length_eq_one.mp h1
          rw [ha] at heq hmem
          rw [show ([a].getLast? : Option (Option NodeInfo)) = some a from rfl] at heq
          have heq2 : a = some node := Option.some.inj heq
          have hmem2 : some ni = a := List.mem_singleton.mp hmem
          rw [heq2] at hmem2
          rw [Option.some.inj hmem2] at hhid
          exact hnothid hhid
    next heq => exact absurd h (by simp)
  refine ⟨hgen, ⟨_, rfl, hgen _
    ⟨⟨.allZeros, [⟨.hidden .allZeros, []⟩], true⟩, by decide, rfl⟩⟩⟩

/-- Witness for C5: the general rejection applied to a concrete one-entry
builder holding a hidden node. -/
theorem claim5_hidden_rejected_witness :
    TaprootBuilder.tryIntoTapTree ⟨[some ⟨.allZeros, [⟨.hidden .allZeros, []⟩], true⟩]⟩ ≠
      .ok ⟨⟨.allZeros, [⟨.hidden .allZeros, []⟩], true⟩⟩ :=
  claim5_hidden_rejected.1 _
    ⟨⟨.allZeros, [⟨.hidden .allZeros, []⟩], true⟩, by decide, rfl⟩ _

/-! ## Round-trip lemmas for the consensus primitives -/

lemma readU32_roundtrip (n : Nat) (rest : List Nat) (h : n < 4294967296) :
    readU32 (u32ToLe n ++ rest) = .ok (n, rest) := by
  simp only [u32ToLe, List.cons_append, List.nil_append, readU32, leToU32,
    Except.ok.injEq, Prod.mk.injEq]
  refine ⟨by omega, ?_⟩
  trivial

lemma readU16_roundtrip (n : Nat) (rest : List Nat) (h : n < 65536) :
    readU16 (u16ToLe n ++ rest) = .ok (n, rest) := by
  simp only [u16ToLe, List.cons_append, List.nil_append, readU16,
    Except.ok.injEq, Prod.mk.injEq]
  refine ⟨by omega, ?_⟩
  trivial

lemma readU64_roundtrip (n : Nat) (rest : List Nat) (h : n < 18446744073709551616) :
    readU64 (u64ToLe n ++ rest) = .ok (n, rest) := by
  simp only [u64ToLe, List.cons_append, List.nil_append, readU64,
    Except.ok.injEq, Prod.mk.injEq]
  refine ⟨by omega, ?_⟩
  trivial

lemma readVarInt_cons (b : Nat) (rest : List Nat) :
    readVarInt (b :: rest) =
      if b = 0xFD then
        match readU16 rest with
        | .ok (v, _) => if v < 0xFD then .error .nonMinimalVarInt else .ok (v, 3)
        | .error e => .error e
      else if b = 0xFE then
        match readU32 rest with
        | .ok (v, _) => if v < 0x10000 then .error .nonMinimalVarInt else .ok (v, 5)
        | .error e => .error e
      else if b = 0xFF then
        match readU64 rest with
        | .ok (v, _) => if v < 0x100000000 then .error .nonMinimalVarInt else .ok (v, 9)
        | .error e => .error e
      else .ok (b, 1) := rfl

lemma readVarInt_roundtrip (n : Nat) (rest : List Nat) (h : n < 18446744073709551616) :
    readVarInt (varIntEncode n ++ rest) = .ok (n, (varIntEncode n).length) := by
  unfold varIntEncode
  by_cases h1 : n < 0xFD
  · rw [if_pos h1, List.cons_append, List.nil_append, readVarInt_cons]
    rw [if_neg (by omega), if_neg (by omega), if_neg (by omega)]
    rfl
  · by_cases h2 : n ≤ 0xFFFF
    · rw [if_neg h1, if_pos h2, List.cons_append, readVarInt_cons, if_pos rfl]
      rw [readU16_roundtrip n rest (by omega)]
      show (if n < 0xFD then Except.error ConsensusError.nonMinimalVarInt
        else Except.ok (n, 3)) = _
      rw [if_neg (by omega)]
      rfl
    · by_cases h3 : n ≤ 0xFFFFFFFF
      · rw [if_neg h1, if_neg h2, if_pos h3, List.cons_append, readVarInt_cons]
        rw [if_neg (by omega), if_pos rfl]
        rw [readU32_roundtrip n rest (by omega)]
        show (if n < 0x10000 then Except.error ConsensusError.nonMinimalVarInt
          else Except.ok (n, 5)) = _
        rw [if_neg (by omega)]
        rfl
      · rw [if_neg h1, if_neg h2, if_neg h3, List.cons_append, readVarInt_cons]
        rw [if_neg (by omega), if_neg (by omega), if_pos rfl]
        rw [readU64_roundtrip n rest (by omega)]
        show (if n < 0x100000000 then Except.error ConsensusError.nonMinimalVarInt
          else Except.ok (n, 9)) = _
        rw [if_neg (by omega)]
        rfl

lemma readScript_roundtrip (s rest : List Nat) (h : s.length < 18446744073709551616) :
    readScript (scriptConsensusEncode s ++ rest) =
      .ok (s, (scriptConsensusEncode s).length) := by
  unfold readScript scriptConsensusEncode
  rw [List.append_assoc]
  rw [readVarInt_roundtrip s.length (s ++ rest) h]
  simp [List.drop_left, List.take_left, List.length_append, Nat.le_add_right]

lemma leafVersion_roundtrip {v : LeafVersion} (h : leafVersionOk v = true) :
    leafVersionFromConsensus v.toConsensus = .ok v := by
  cases v with
  | tapScript => rfl
  | future w =>
    simp only [leafVersionOk, Bool.and_eq_true, decide_eq_true_eq] at h
    obtain ⟨⟨⟨h0, h50⟩, hC0⟩, _⟩ := h
    show leafVersionFromConsensus w = .ok (.future w)
    unfold leafVersionFromConsensus
    rw [if_neg hC0, if_neg h50, if_neg (by omega)]

/-! ## Lemmas about the taproot builder insertion -/

lemma set_replicate_last {α : Type} (k : Nat) (x a : α) :
    (List.replicate (k + 1) a).set k x = List.replicate k a ++ [x] := by
  induction k with
  | zero => rfl
  | succ k ih =>
    rw [List.replicate_succ, List.set_cons_succ, ih]
    rw [List.replicate_succ]
    rfl

lemma set_last_append {α : Type} (l : List α) (k : Nat) (x a : α) :
    (l ++ List.replicate (k + 1) a).set (l.length + k) x
      = l ++ List.replicate k a ++ [x] := by
  induction l with
  | nil => simpa using set_replicate_last k x a
  | cons c l ih =>
    rw [List.cons_append, show (c :: l).length + k = (l.length + k) + 1 by
      simp [List.length_cons]; omega]
    rw [List.set_cons_succ, ih]
    rfl

lemma insertLoop_stop {depth : Nat} {branch : List (Option NodeInfo)} {node : NodeInfo}
    (h : branch.length ≠ depth + 1) :
    insertLoop depth branch node = .ok (branch, node, depth) := by
  unfold insertLoop
  rw [if_neg h]

lemma insertLoop_pop_none {depth : Nat} {branch : List (Option NodeInfo)} {node : NodeInfo}
    (h : branch.length = depth + 1) (hl : branch.getLast? = some none) :
    insertLoop depth branch node = .ok (branch.dropLast, node, depth) := by
  unfold insertLoop
  rw [if_pos h, hl]

lemma insertLoop_pop_some {d : Nat} {branch : List (Option NodeInfo)}
    {node child combined : NodeInfo}
    (h : branch.length = d + 2) (hl : branch.getLast? = some (some child))
    (hc : NodeInfo.combine child node = .ok combined) :
    insertLoop (d + 1) branch node = insertLoop d branch.dropLast combined := by
  conv_lhs => unfold insertLoop
  rw [if_pos h, hl]
  simp only []
  rw [hc]

lemma getLast?_append_replicate_succ {α : Type} (l : List α) (k : Nat) (a : α) :
    (l ++ List.replicate (k + 1) a).getLast? = some a := by
  rw [List.replicate_succ', ← List.append_assoc, List.getLast?_concat]

lemma dropLast_append_replicate_succ {α : Type} (l : List α) (k : Nat) (a : α) :
    (l ++ List.replicate (k + 1) a).dropLast = l ++ List.replicate k a := by
  rw [List.replicate_succ', ← List.append_assoc, List.dropLast_concat]

/-- The unfolded body of TaprootBuilder::insert. -/
lemma insert_def (br : List (Option NodeInfo)) (node : NodeInfo) (depth : Nat) :
    TaprootBuilder.insert ⟨br⟩ node depth =
      if 128 < depth then .error (.invalidMerkleTreeDepth depth)
      else if depth + 1 < br.length then .error .nodeNotInDfsOrder
      else
        match insertLoop depth br node with
        | .error e => .error e
        | .ok (br2, nd, d) =>
          let br3 := if br2.length < d + 1 then br2 ++ List.replicate (d + 1 - br2.length) none
            else br2
          .ok ⟨br3.set d (some nd)⟩ := rfl

/-- Inserting at a depth no less than the stack height stores the node at its
depth, padding the stack with empty slots (the no-combine path of the while
loop). -/
lemma insert_no_combine (br : List (Option NodeInfo)) (node : NodeInfo) (k : Nat)
    (hd : br.length + k ≤ 128) :
    TaprootBuilder.insert ⟨br⟩ node (br.length + k) =
      .ok ⟨br ++ List.replicate k none ++ [some node]⟩ := by
  rw [insert_def]
  rw [if_neg (by omega), if_neg (by omega)]
  rw [insertLoop_stop (by omega)]
  simp only []
  rw [if_pos (by omega)]
  rw [show br.length + k + 1 - br.length = k + 1 by omega]
  rw [set_last_append]

lemma insert_no_combine_of_le (br : List (Option NodeInfo)) (node : NodeInfo) (d : Nat)
    (hlen : br.length ≤ d) (hd : d ≤ 128) :
    TaprootBuilder.insert ⟨br⟩ node d =
      .ok ⟨br ++ List.replicate (d - br.length) none ++ [some node]⟩ := by
  have h : br.length + (d - br.length) = d := by omega
  have h2 := insert_no_combine br node (d - br.length) (by omega)
  rw [h] at h2
  exact h2

lemma pushBranchAll_ok {ls : List LeafNode}
    (h : ∀ l ∈ ls, l.merkleBranch.length < 128) (hh : TapNodeHash) :
    pushBranchAll ls hh = .ok (ls.map fun l => ⟨l.leaf, l.merkleBranch ++ [hh]⟩) := by
  induction ls with
  | nil => rfl
  | cons l ls ih =>
    have hl := h l (List.mem_cons_self l ls)
    have hrest := ih (fun x hx => h x (List.mem_cons_of_mem _ hx))
    simp [pushBranchAll, pushBranch, Nat.not_le.mpr hl, hrest]

lemma combine_ok {a b : NodeInfo}
    (ha : ∀ l ∈ a.leaves, l.merkleBranch.length < 128)
    (hb : ∀ l ∈ b.leaves, l.merkleBranch.length < 128) :
    NodeInfo.combine a b = .ok (combineNodes a b) := by
  unfold NodeInfo.combine combineNodes
  rw [pushBranchAll_ok ha, pushBranchAll_ok hb]

/-- The cascade law of the while loop: inserting the right sibling at depth
d + 1 into the stack holding the left sibling at depth d + 1 equals inserting
the combined node at depth d into the original stack. -/
lemma insert_cascade (br : List (Option NodeInfo)) (nl nr : NodeInfo) (d : Nat)
    (hlen : br.length ≤ d + 1) (hd : d + 1 ≤ 128)
    (hc : NodeInfo.combine nl nr = .ok (combineNodes nl nr)) :
    TaprootBuilder.insert
      ⟨br ++ List.replicate (d + 1 - br.length) none ++ [some nl]⟩ nr (d + 1) =
      TaprootBuilder.insert ⟨br⟩ (combineNodes nl nr) d := by
  have hlen1 : (br ++ List.replicate (d + 1 - br.length) none ++ [some nl]).length
      = d + 2 := by
    simp only [List.length_append, List.length_replicate, List.length_cons,
      List.length_nil]
    omega
  rcases Nat.lt_or_ge br.length (d + 1) with hcase | hcase
  · -- the stack is strictly below the insertion depth: one combine step, then
    -- an empty slot is popped
    have hk : d + 1 - br.length = (d - br.length) + 1 := by omega
    have hlen2 : (br ++ List.replicate (d - br.length) none).length = d := by
      rw [List.length_append, List.length_replicate]
      omega
    have hLHS : TaprootBuilder.insert
        ⟨br ++ List.replicate (d + 1 - br.length) none ++ [some nl]⟩ nr (d + 1) =
        .ok ⟨br ++ List.replicate (d - br.length) none ++ [some (combineNodes nl nr)]⟩ := by
      rw [insert_def]
      rw [if_neg (by omega), if_neg (by rw [hlen1]; omega)]
      rw [insertLoop_pop_some hlen1 (List.getLast?_concat _) hc]
      rw [List.dropLast_concat]
      rw [insertLoop_pop_none
        (by rw [List.length_append, List.length_replicate]; omega)
        (by rw [hk]; exact getLast?_append_replicate_succ _ _ _)]
      simp only []
      rw [hk, dropLast_append_replicate_succ]
      rw [if_pos (by rw [hlen2]; omega)]
      rw [hlen2]
      rw [show d + 1 - d = 1 by omega]
      have hset := set_last_append (br ++ List.replicate (d - br.length) none) 0
        (some (combineNodes nl nr)) (none : Option NodeInfo)
      rw [hlen2] at hset
      simp only [Nat.add_zero, Nat.zero_add, List.replicate_zero, List.append_nil] at hset
      rw [hset]
    rw [hLHS]
    rw [insert_no_combine_of_le br _ d (by omega) (by omega)]
  · -- the stack already reaches the insertion depth: both sides continue with
    -- the same cascade
    have hk0 : d + 1 - br.length = 0 := by omega
    rw [insert_def, insert_def]
    rw [if_neg (by omega), if_neg (by rw [hlen1]; omega), if_neg (by omega),
      if_neg (by omega)]
    rw [insertLoop_pop_some hlen1 (List.getLast?_concat _) hc]
    rw [List.dropLast_concat, hk0]
    rw [show br ++ List.replicate 0 none = br from by simp]

/-! ## Lemmas about tree shapes -/

lemma shapeOk_le {t : TapShape} : ∀ {d : Nat}, shapeOk t d = true → d ≤ 128 := by
  induction t with
  | leaf s v =>
    intro d h
    simp only [shapeOk, Bool.and_eq_true, decide_eq_true_eq] at h
    exact h.1.1
  | node l r ihl ihr =>
    intro d h
    simp only [shapeOk, Bool.and_eq_true] at h
    exact Nat.le_of_succ_le (ihl h.1)

lemma nodeOf_hasHidden (t : TapShape) : (nodeOf t).hasHiddenNodes = false := by
  induction t with
  | leaf s v => rfl
  | node l r ihl ihr => simp [nodeOf, combineNodes, ihl, ihr]

lemma nodeOf_branch_le {t : TapShape} : ∀ {d : Nat}, shapeOk t d = true →
    ∀ l ∈ (nodeOf t).leaves, l.merkleBranch.length + d ≤ 128 := by
  induction t with
  | leaf s v =>
    intro d h l hl
    simp only [shapeOk, Bool.and_eq_true, decide_eq_true_eq] at h
    simp only [nodeOf, NodeInfo.newLeafWithVer, List.mem_singleton] at hl
    subst hl
    simpa using h.1.1
  | node a b iha ihb =>
    intro d h l hl
    simp only [shapeOk, Bool.and_eq_true] at h
    simp only [nodeOf, combineNodes, List.mem_append, List.mem_map] at hl
    rcases hl with ⟨x, hx, rfl⟩ | ⟨x, hx, rfl⟩
    · have hb1 := iha h.1 x hx
      simp only [List.length_append, List.length_cons, List.length_nil]
      omega
    · have hb1 := ihb h.2 x hx
      simp only [List.length_append, List.length_cons, List.length_nil]
      omega

lemma shapeFlat_bump (t : TapShape) : ∀ (d : Nat),
    shapeFlat t (d + 1) = (shapeFlat t d).map bumpTriple := by
  induction t with
  | leaf s v => intro d; rfl
  | node l r ihl ihr => intro d; simp [shapeFlat, ihl, ihr]

lemma leafTriple_push (l : LeafNode) (h : TapNodeHash) :
    leafTriple ⟨l.leaf, l.merkleBranch ++ [h]⟩ = bumpTriple (leafTriple l) := by
  obtain ⟨leaf, branch⟩ := l
  cases leaf <;> simp [leafTriple, bumpTriple]

lemma nodeOf_leafTriples (t : TapShape) :
    (nodeOf t).leaves.map leafTriple = shapeFlat t 0 := by
  induction t with
  | leaf s v => rfl
  | node l r ihl ihr =>
    show ((nodeOf l).leaves.map
          (fun x => LeafNode.mk x.leaf (x.merkleBranch ++ [(nodeOf r).hash]))
        ++ (nodeOf r).leaves.map
          (fun x => LeafNode.mk x.leaf (x.merkleBranch ++ [(nodeOf l).hash]))).map leafTriple
      = shapeFlat l 1 ++ shapeFlat r 1
    rw [List.map_append, List.map_map, List.map_map]
    rw [shapeFlat_bump l 0, shapeFlat_bump r 0, ← ihl, ← ihr]
    rw [List.map_map, List.map_map]
    congr 1
    · apply List.map_congr_left
      intro x _
      exact leafTriple_push x _
    · apply List.map_congr_left
      intro x _
      exact leafTriple_push x _

lemma nodeOf_leaves_script (t : TapShape) :
    ∀ l ∈ (nodeOf t).leaves, ∃ s v, l.leaf = .script s v := by
  induction t with
  | leaf s v =>
    intro l hl
    simp only [nodeOf, NodeInfo.newLeafWithVer, List.mem_singleton] at hl
    subst hl
    exact ⟨s, v, rfl⟩
  | node a b iha ihb =>
    intro l hl
    simp only [nodeOf, combineNodes, List.mem_append, List.mem_map] at hl
    rcases hl with ⟨x, hx, rfl⟩ | ⟨x, hx, rfl⟩
    · obtain ⟨s, v, hsv⟩ := iha x hx
      exact ⟨s, v, hsv⟩
    · obtain ⟨s, v, hsv⟩ := ihb x hx
      exact ⟨s, v, hsv⟩

lemma flatMap_ser_eq (ls : List LeafNode) (h : ∀ l ∈ ls, ∃ s v, l.leaf = .script s v) :
    (ls.flatMap fun l =>
      match l.leaf with
      | .script s v => l.merkleBranch.length :: v.toConsensus :: scriptConsensusEncode s
      | .hidden _ => []) = (ls.map leafTriple).flatMap encodeTriple := by
  induction ls with
  | nil => rfl
  | cons l ls ih =>
    obtain ⟨s, v, hsv⟩ := h l (List.mem_cons_self l ls)
    have ihh := ih (fun x hx => h x (List.mem_cons_of_mem _ hx))
    obtain ⟨leaf, branch⟩ := l
    simp only at hsv
    subst hsv
    simp only [List.flatMap_cons, List.map_cons, ihh, leafTriple, encodeTriple]

lemma serialize_nodeOf (t : TapShape) :
    serializeTapTree ⟨nodeOf t⟩ = encodeTriples (shapeFlat t 0) := by
  unfold serializeTapTree encodeTriples
  rw [flatMap_ser_eq _ (nodeOf_leaves_script t), nodeOf_leafTriples]

lemma shapeFlat_props {t : TapShape} : ∀ {d : Nat}, shapeOk t d = true →
    ∀ x ∈ shapeFlat t d,
      leafVersionOk x.2.2 = true ∧ x.2.1.length < 18446744073709551616 := by
  induction t with
  | leaf s v =>
    intro d h x hx
    simp only [shapeOk, Bool.and_eq_true, decide_eq_true_eq] at h
    simp only [shapeFlat, List.mem_singleton] at hx
    subst hx
    exact ⟨h.1.2, h.2⟩
  | node l r ihl ihr =>
    intro d h x hx
    simp only [shapeOk, Bool.and_eq_true] at h
    simp only [shapeFlat, List.mem_append] at hx
    rcases hx with hx | hx
    · exact ihl h.1 x hx
    · exact ihr h.2 x hx

/-! ## Replay of a DFS leaf sequence through the builder -/

lemma replayTriples_append (xs ys : List (Nat × List Nat × LeafVersion)) :
    ∀ b : TaprootBuilder, replayTriples b (xs ++ ys) =
      match replayTriples b xs with
      | .ok b2 => replayTriples b2 ys
      | .error e => .error e := by
  induction xs with
  | nil => intro b; rfl
  | cons x xs ih =>
    intro b
    obtain ⟨d, s, v⟩ := x
    cases h : TaprootBuilder.addLeafWithVer b d s v with
    | ok b2 =>
      have hL : replayTriples b ((d, s, v) :: (xs ++ ys)) = replayTriples b2 (xs ++ ys) := by
        rw [replayTriples.eq_def]
        simp only []
        rw [h]
      have hR : replayTriples b ((d, s, v) :: xs) = replayTriples b2 xs := by
        rw [replayTriples.eq_def]
        simp only []
        rw [h]
      rw [List.cons_append, hL, hR, ih b2]
    | error e =>
      have hL : replayTriples b ((d, s, v) :: (xs ++ ys)) = .error e := by
        rw [replayTriples.eq_def]
        simp only []
        rw [h]
      have hR : replayTriples b ((d, s, v) :: xs) = .error e := by
        rw [replayTriples.eq_def]
        simp only []
        rw [h]
      rw [List.cons_append, hL, hR]

/-- Replaying the DFS flattening of a shape into a stack that does not reach
below the shape root equals inserting the denoted node directly. -/
lemma replay_shapeFlat (t : TapShape) : ∀ (d : Nat) (br : List (Option NodeInfo)),
    shapeOk t d = true → br.length ≤ d + 1 →
    replayTriples ⟨br⟩ (shapeFlat t d) = TaprootBuilder.insert ⟨br⟩ (nodeOf t) d := by
  induction t with
  | leaf s v =>
    intro d br hok hlen
    show replayTriples ⟨br⟩ [(d, s, v)] = TaprootBuilder.insert ⟨br⟩ (nodeOf (.leaf s v)) d
    cases h : TaprootBuilder.addLeafWithVer ⟨br⟩ d s v with
    | ok b2 =>
      have hL : replayTriples ⟨br⟩ [(d, s, v)] = replayTriples b2 [] := by
        rw [replayTriples.eq_def]
        simp only []
        rw [h]
      rw [hL]
      exact h.symm
    | error e =>
      have hL : replayTriples ⟨br⟩ [(d, s, v)] = .error e := by
        rw [replayTriples.eq_def]
        simp only []
        rw [h]
      rw [hL]
      exact h.symm
  | node l r ihl ihr =>
    intro d br hok hlen
    simp only [shapeOk, Bool.and_eq_true] at hok
    have hd1 : d + 1 ≤ 128 := shapeOk_le hok.1
    show replayTriples ⟨br⟩ (shapeFlat l (d + 1) ++ shapeFlat r (d + 1)) = _
    rw [replayTriples_append]
    rw [ihl (d + 1) br hok.1 (by omega)]
    rw [insert_no_combine_of_le br _ (d + 1) (by omega) hd1]
    simp only []
    rw [ihr (d + 1) _ hok.2 (by
      simp only [List.length_append, List.length_replicate, List.length_cons,
        List.length_nil]
      omega)]
    have hcl : ∀ x ∈ (nodeOf l).leaves, x.merkleBranch.length < 128 := by
      intro x hx
      have := nodeOf_branch_le hok.1 x hx
      omega
    have hcr : ∀ x ∈ (nodeOf r).leaves, x.merkleBranch.length < 128 := by
      intro x hx
      have := nodeOf_branch_le hok.2 x hx
      omega
    exact insert_cascade br (nodeOf l) (nodeOf r) d hlen hd1 (combine_ok hcl hcr)

/-! ## The TapTree decode loop parses an encoded DFS sequence into the
builder replay -/

lemma deserializeLoop_nil (fuel : Nat) (b : TaprootBuilder) :
    deserializeTapTreeLoop fuel b [] = .ok b := by
  cases fuel <;> rfl

lemma deserializeLoop_step (fuel : Nat) (b : TaprootBuilder) (d vb : Nat)
    (rest2 : List Nat) (s : List Nat) (c : Nat) (lv : LeafVersion)
    (hs : readScript rest2 = .ok (s, c))
    (hv : leafVersionFromConsensus vb = .ok lv) :
    deserializeTapTreeLoop (fuel + 1) b (d :: vb :: rest2) =
      match b.addLeafWithVer d s lv with
      | .error _ => .error (.taproot dfsOrderMsg)
      | .ok b2 => deserializeTapTreeLoop fuel b2 (rest2.drop c) := by
  conv_lhs => unfold deserializeTapTreeLoop
  simp only []
  rw [hs]
  simp only []
  rw [hv]

lemma encodeTriples_len (ts : List (Nat × List Nat × LeafVersion)) :
    ts.length ≤ (encodeTriples ts).length := by
  induction ts with
  | nil => simp [encodeTriples]
  | cons x ts ih =>
    unfold encodeTriples at ih ⊢
    rw [List.flatMap_cons, List.length_append, List.length_cons]
    have h1 : 1 ≤ (encodeTriple x).length := by
      obtain ⟨d, s, v⟩ := x
      simp only [encodeTriple, List.length_cons]
      omega
    omega

lemma deserializeLoop_encodeTriples (ts : List (Nat × List Nat × LeafVersion)) :
    ∀ (b : TaprootBuilder) (fuel : Nat),
    (∀ x ∈ ts, leafVersionOk x.2.2 = true ∧ x.2.1.length < 18446744073709551616) →
    ts.length ≤ fuel →
    deserializeTapTreeLoop fuel b (encodeTriples ts) =
      match replayTriples b ts with
      | .ok b2 => .ok b2
      | .error _ => .error (.taproot dfsOrderMsg) := by
  induction ts with
  | nil =>
    intro b fuel _ _
    rw [show encodeTriples [] = [] from rfl, deserializeLoop_nil]
    rfl
  | cons x ts ih =>
    obtain ⟨d, s, v⟩ := x
    intro b fuel hx hfuel
    cases fuel with
    | zero =>
      exfalso
      simp only [List.length_cons] at hfuel
      omega
    | succ fuel =>
      have hhead := hx (d, s, v) (List.mem_cons_self _ _)
      have henc : encodeTriples ((d, s, v) :: ts) =
          d :: v.toConsensus :: (scriptConsensusEncode s ++ encodeTriples ts) := by
        unfold encodeTriples
        rw [List.flatMap_cons]
        show encodeTriple (d, s, v) ++ _ = _
        unfold encodeTriple
        simp [List.cons_append, List.append_assoc]
      rw [henc]
      rw [deserializeLoop_step fuel b d v.toConsensus _ s (scriptConsensusEncode s).length
        v (readScript_roundtrip s (encodeTriples ts) hhead.2)
        (leafVersion_roundtrip hhead.1)]
      rw [List.drop_left]
      cases h : TaprootBuilder.addLeafWithVer b d s v with
      | ok b2 =>
        simp only [h]
        rw [ih b2 fuel (fun y hy => hx y (List.mem_cons_of_mem _ hy))
          (by simp only [List.length_cons] at hfuel; omega)]
        have hR : replayTriples b ((d, s, v) :: ts) = replayTriples b2 ts := by
          rw [replayTriples.eq_def]
          simp only []
          rw [h]
        rw [hR]
      | error e =>
        simp only [h]
        have hR : replayTriples b ((d, s, v) :: ts) = .error e := by
          rw [replayTriples.eq_def]
          simp only []
          rw [h]
        rw [hR]

/-- Round-trip of the TapTree codec over every tree shape constructible
through the builder API. -/
lemma taptree_roundtrip_shape (t : TapShape) (hok : shapeOk t 0 = true) :
    deserializeTapTree (serializeTapTree ⟨nodeOf t⟩) = .ok ⟨nodeOf t⟩ := by
  rw [serialize_nodeOf]
  unfold deserializeTapTree
  rw [deserializeLoop_encodeTriples (shapeFlat t 0) TaprootBuilder.new _
    (shapeFlat_props hok) (encodeTriples_len _)]
  rw [show (TaprootBuilder.new : TaprootBuilder) = ⟨[]⟩ from rfl]
  rw [replay_shapeFlat t 0 [] hok (by simp)]
  rw [insert_no_combine_of_le [] _ 0 (by simp) (by omega)]
  simp [TaprootBuilder.tryIntoTapTree, nodeOf_hasHidden]

/-! ## C2: the two structural failure classes of the TapTree decoder -/

/-- C2: the TapTree decoder distinguishes the two structural failures: a
well-formed byte run whose leaf records make a builder insertion fail
deserializes to the DFS-order taproot error, while a run that replays fully
but whose builder fails finalization deserializes to the distinct
incomplete-tree (TapTree) error kind carrying that finalization failure. -/
theorem claim2_taptree_error_classes :
    (∀ (ts : List (Nat × List Nat × LeafVersion)) (e : TaprootBuilderError),
      (∀ x ∈ ts, leafVersionOk x.2.2 = true ∧ x.2.1.length < 18446744073709551616) →
      replayTriples TaprootBuilder.new ts = .error e →
      deserializeTapTree (encodeTriples ts) = .error (.taproot dfsOrderMsg)) ∧
    (∀ (ts : List (Nat × List Nat × LeafVersion)) (b : TaprootBuilder)
        (e : IncompleteBuilderError),
      (∀ x ∈ ts, leafVersionOk x.2.2 = true ∧ x.2.1.length < 18446744073709551616) →
      replayTriples TaprootBuilder.new ts = .ok b →
      b.tryIntoTapTree = .error e →
      deserializeTapTree (encodeTriples ts) = .error (.tapTree e)) := by
  constructor
  · intro ts e hts hrep
    unfold deserializeTapTree
    rw [deserializeLoop_encodeTriples ts TaprootBuilder.new _ hts (encodeTriples_len _)]
    rw [hrep]
  · intro ts b e hts hrep hfin
    unfold deserializeTapTree
    rw [deserializeLoop_encodeTriples ts TaprootBuilder.new _ hts (encodeTriples_len _)]
    rw [hrep]
    simp only []
    rw [hfin]

/-- Witness for C2: a two-leaf run with depths 2 then 1 hits the DFS-order
error, and a single depth-1 leaf parses fully but fails finalization with the
TapTree kind. -/
theorem claim2_taptree_error_classes_witness :
    deserializeTapTree (encodeTriples [(2, [0x51], .tapScript), (1, [0x52], .tapScript)]) =
      .error (.taproot dfsOrderMsg) ∧
    deserializeTapTree (encodeTriples [(1, [0x51], .tapScript)]) =
      .error (.tapTree (.notFinalized ⟨[none,
        some ⟨.leafHash [0x51] .tapScript, [⟨.script [0x51] .tapScript, []⟩], false⟩]⟩)) :=
  ⟨claim2_taptree_error_classes.1 _ .nodeNotInDfsOrder (by decide) (by decide),
   claim2_taptree_error_classes.2 [(1, [0x51], .tapScript)]
     ⟨[none, some ⟨.leafHash [0x51] .tapScript, [⟨.script [0x51] .tapScript, []⟩], false⟩]⟩
     (.notFinalized ⟨[none, some ⟨.leafHash [0x51] .tapScript,
       [⟨.script [0x51] .tapScript, []⟩], false⟩]⟩)
     (by decide) (by decide) (by decide)⟩

/-! ## Round-trip lemmas for the primitive codecs -/

lemma consensusDeserializeU32_roundtrip (n : Nat) (h : n < 4294967296) :
    consensusDeserializeU32 (u32ToLe n) = .ok n := by
  unfold consensusDeserializeU32
  rw [show u32ToLe n = u32ToLe n ++ [] from (List.append_nil _).symm]
  rw [readU32_roundtrip n [] h]

lemma u32_roundtrip : ∀ n : Nat, n < 4294967296 →
    deserializeU32 (serializeU32 n) = .ok n := by
  intro n h
  unfold deserializeU32 serializeU32
  rw [consensusDeserializeU32_roundtrip n h]

lemma sequence_roundtrip : ∀ n : Sequence, n < 4294967296 →
    deserializeSequence (serializeSequence n) = .ok n := by
  intro n h
  unfold deserializeSequence serializeSequence
  rw [consensusDeserializeU32_roundtrip n h]

lemma psbtSighashType_roundtrip : ∀ t : PsbtSighashType, t.inner < 4294967296 →
    deserializePsbtSighashType (serializePsbtSighashType t) = .ok t := by
  intro t h
  obtain ⟨n⟩ := t
  unfold deserializePsbtSighashType serializePsbtSighashType
  rw [consensusDeserializeU32_roundtrip n h]

lemma readU32Seq_flat (path : List Nat) (h : ∀ i ∈ path, i < 4294967296) :
    readU32Seq (path.flatMap u32ToLe) = .ok path := by
  induction path with
  | nil => rfl
  | cons i path ih =>
    have hi := h i (List.mem_cons_self _ _)
    have ihh := ih (fun x hx => h x (List.mem_cons_of_mem _ hx))
    rw [List.flatMap_cons]
    rw [show u32ToLe i = [i % 256, i / 256 % 256, i / 65536 % 256, i / 16777216 % 256]
      from rfl]
    rw [List.cons_append, List.cons_append, List.cons_append, List.cons_append,
      List.nil_append]
    have hstep : readU32Seq (i % 256 :: i / 256 % 256 :: i / 65536 % 256 ::
        i / 16777216 % 256 :: path.flatMap u32ToLe) =
        match readU32Seq (path.flatMap u32ToLe) with
        | .ok ns => .ok (leToU32 (i % 256) (i / 256 % 256) (i / 65536 % 256)
            (i / 16777216 % 256) :: ns)
        | .error e => .error e := by
      conv_lhs => unfold readU32Seq
    rw [hstep, ihh]
    simp only []
    rw [show leToU32 (i % 256) (i / 256 % 256) (i / 65536 % 256) (i / 16777216 % 256) = i
      from by unfold leToU32; omega]

lemma keySource_roundtrip : ∀ ks : KeySource, ks.fingerprint.length = 4 →
    (∀ i ∈ ks.path, i < 4294967296) →
    deserializeKeySource (serializeKeySource ks) = .ok ks := by
  intro ks hfp hpath
  obtain ⟨fp, path⟩ := ks
  have hfp2 : fp.length = 4 := hfp
  have hdrop : (fp ++ path.flatMap u32ToLe).drop 4 = path.flatMap u32ToLe := by
    rw [← hfp2]
    exact List.drop_left _ _
  have htake : (fp ++ path.flatMap u32ToLe).take 4 = fp := by
    rw [← hfp2]
    exact List.take_left _ _
  show deserializeKeySource (fp ++ path.flatMap u32ToLe) = _
  unfold deserializeKeySource
  rw [if_neg (by rw [List.length_append, hfp2]; omega)]
  rw [hdrop, readU32Seq_flat path hpath]
  simp only []
  rw [htake]

lemma publicKey_roundtrip : ∀ k : PublicKey, publicKeyBytesOk k.bytes = true →
    deserializePublicKey (serializePublicKey k) = .ok k := by
  intro k h
  obtain ⟨b⟩ := k
  unfold deserializePublicKey serializePublicKey
  rw [if_pos h]

lemma secpPublicKey_roundtrip : ∀ k : Secp256k1PublicKey,
    secpPublicKeyBytesOk k.bytes = true →
    deserializeSecpPublicKey (serializeSecpPublicKey k) = .ok k := by
  intro k h
  obtain ⟨b⟩ := k
  unfold deserializeSecpPublicKey serializeSecpPublicKey
  rw [if_pos h]

lemma xonly_roundtrip : ∀ k : XOnlyPublicKey, k.bytes.length = 32 →
    deserializeXOnlyPublicKey (serializeXOnlyPublicKey k) = .ok k := by
  intro k h
  obtain ⟨b⟩ := k
  unfold deserializeXOnlyPublicKey serializeXOnlyPublicKey
  rw [if_pos h]

lemma controlBlock_roundtrip : ∀ c : ControlBlock, controlBlockOk c.bytes = true →
    deserializeControlBlock (serializeControlBlock c) = .ok c := by
  intro c h
  obtain ⟨b⟩ := c
  unfold deserializeControlBlock serializeControlBlock
  rw [if_pos h]

lemma ecdsa_roundtrip : ∀ s : EcdsaSignature, derSigOk s.signature.der = true →
    ecdsaStdSighash s.sighashType = true →
    deserializeEcdsaSignature (serializeEcdsaSignature s) = .ok s := by
  intro s hder hflag
  obtain ⟨⟨der⟩, flag⟩ := s
  show deserializeEcdsaSignature (der ++ [flag]) = _
  unfold deserializeEcdsaSignature
  rw [ecdsaSigFromSlice_ne_nil (by simp)]
  rw [List.dropLast_concat, List.getLastD_concat]
  rw [if_pos hflag, if_pos hder]

lemma taprootSig_roundtrip : ∀ s : TaprootSignature, s.signature.bytes.length = 64 →
    tapStdSighash s.sighashType = true →
    deserializeTaprootSignature (serializeTaprootSignature s) = .ok s := by
  intro s hlen hflag
  obtain ⟨⟨bytes⟩, flag⟩ := s
  have hlen2 : bytes.length = 64 := hlen
  unfold serializeTaprootSignature taprootSigToVec
  by_cases h0 : flag = 0
  · subst h0
    rw [if_pos rfl]
    unfold deserializeTaprootSignature taprootSigFromSlice
    rw [if_pos hlen2]
  · rw [if_neg h0]
    unfold deserializeTaprootSignature taprootSigFromSlice
    rw [if_neg (by rw [List.length_append, hlen2]; simp),
      if_pos (by rw [List.length_append, hlen2]; simp)]
    simp only []
    rw [List.getLastD_concat, List.dropLast_concat]
    rw [if_pos hflag]

lemma scriptLeafVersion_roundtrip : ∀ p : ScriptBuf × LeafVersion,
    leafVersionOk p.2 = true →
    deserializeScriptLeafVersion (serializeScriptLeafVersion p) = .ok p := by
  intro p h
  obtain ⟨s, v⟩ := p
  show deserializeScriptLeafVersion (s ++ [v.toConsensus]) = _
  unfold deserializeScriptLeafVersion
  rw [if_neg (by simp)]
  simp only [deserializeScriptBuf]
  rw [List.getLastD_concat, leafVersion_roundtrip h]
  simp only []
  rw [show (s ++ [v.toConsensus]).length - 1 = s.length by simp]
  rw [List.take_left]

lemma xonlyLeafHash_roundtrip : ∀ p : XOnlyPublicKey × TapLeafHash,
    p.1.bytes.length = 32 → p.2.bytes.length = 32 →
    deserializeXOnlyLeafHash (serializeXOnlyLeafHash p) = .ok p := by
  intro p hk hh
  obtain ⟨⟨kb⟩, ⟨hb⟩⟩ := p
  have hk2 : kb.length = 32 := hk
  have hh2 : hb.length = 32 := hh
  show deserializeXOnlyLeafHash (kb ++ hb) = _
  unfold deserializeXOnlyLeafHash
  rw [if_neg (by rw [List.length_append, hk2]; omega)]
  rw [show (kb ++ hb).take 32 = kb from by rw [← hk2]; exact List.take_left _ _]
  rw [show (kb ++ hb).drop 32 = hb from by rw [← hk2]; exact List.drop_left _ _]
  unfold deserializeXOnlyPublicKey deserializeTapLeafHash
  rw [if_pos hk2]
  simp only []
  rw [if_pos hh2]

lemma flatBytes_len (hs : List TapLeafHash) (h : ∀ x ∈ hs, x.bytes.length = 32) :
    (hs.flatMap (·.bytes)).length = 32 * hs.length := by
  induction hs with
  | nil => rfl
  | cons x hs ih =>
    rw [List.flatMap_cons, List.length_append, h x (List.mem_cons_self _ _),
      ih (fun y hy => h y (List.mem_cons_of_mem _ hy)), List.length_cons]
    omega

lemma readTapLeafHashes_flat (hs : List TapLeafHash) (rest : List Nat)
    (h : ∀ x ∈ hs, x.bytes.length = 32) :
    readTapLeafHashes hs.length (hs.flatMap (·.bytes) ++ rest) =
      .ok (hs, 32 * hs.length) := by
  induction hs with
  | nil => rfl
  | cons x hs ih =>
    have hx := h x (List.mem_cons_self _ _)
    have ihh := ih (fun y hy => h y (List.mem_cons_of_mem _ hy))
    rw [List.length_cons, List.flatMap_cons, List.append_assoc]
    conv_lhs => unfold readTapLeafHashes
    rw [if_pos (by rw [List.length_append, hx]; omega)]
    rw [show (x.bytes ++ (hs.flatMap (·.bytes) ++ rest)).drop 32
      = hs.flatMap (·.bytes) ++ rest from by rw [← hx]; exact List.drop_left _ _]
    rw [ihh]
    simp only []
    rw [show (x.bytes ++ (hs.flatMap (·.bytes) ++ rest)).take 32 = x.bytes
      from by rw [← hx]; exact List.take_left _ _]
    rw [show (⟨x.bytes⟩ : TapLeafHash) = x from by cases x; rfl]
    rw [show 32 * (hs.length + 1) = 32 * hs.length + 32 from by omega]

lemma readTapLeafHashList_encode (hs : List TapLeafHash) (rest : List Nat)
    (h : ∀ x ∈ hs, x.bytes.length = 32) (hn : hs.length < 18446744073709551616) :
    readTapLeafHashList (encodeTapLeafHashList hs ++ rest) =
      .ok (hs, (encodeTapLeafHashList hs).length) := by
  unfold readTapLeafHashList encodeTapLeafHashList
  rw [List.append_assoc, readVarInt_roundtrip hs.length _ hn]
  simp only []
  rw [List.drop_left]
  rw [readTapLeafHashes_flat hs rest h]
  simp only []
  rw [show (varIntEncode hs.length ++ hs.flatMap (·.bytes)).length
    = (varIntEncode hs.length).length + 32 * hs.length from by
      rw [List.length_append, flatBytes_len hs h]]

lemma leafHashesKeySource_roundtrip : ∀ p : List TapLeafHash × KeySource,
    (∀ x ∈ p.1, x.bytes.length = 32) → p.1.length < 18446744073709551616 →
    p.2.fingerprint.length = 4 → (∀ i ∈ p.2.path, i < 4294967296) →
    deserializeLeafHashesKeySource (serializeLeafHashesKeySource p) = .ok p := by
  intro p hh hn hfp hpath
  obtain ⟨hs, ks⟩ := p
  show deserializeLeafHashesKeySource (encodeTapLeafHashList hs ++ serializeKeySource ks) = _
  unfold deserializeLeafHashesKeySource
  rw [readTapLeafHashList_encode hs _ hh hn]
  simp only []
  rw [List.drop_left]
  rw [keySource_roundtrip ks hfp hpath]

/-! ## C1: the round-trip law -/

/-- C1: the round-trip law of the codec: for every embedded domain type
(32-bit integers, sequence numbers, sighash types, key sources, public keys,
ECDSA and schnorr signatures, the taproot pair codecs, control blocks, and
taproot trees) and every value constructible through the public API,
deserializing the serialization returns the value. -/
theorem claim1_roundtrip :
    (∀ n : Nat, n < 4294967296 → deserializeU32 (serializeU32 n) = .ok n) ∧
    (∀ n : Sequence, n < 4294967296 → deserializeSequence (serializeSequence n) = .ok n) ∧
    (∀ t : PsbtSighashType, t.inner < 4294967296 →
      deserializePsbtSighashType (serializePsbtSighashType t) = .ok t) ∧
    (∀ ks : KeySource, ks.fingerprint.length = 4 → (∀ i ∈ ks.path, i < 4294967296) →
      deserializeKeySource (serializeKeySource ks) = .ok ks) ∧
    (∀ k : PublicKey, publicKeyBytesOk k.bytes = true →
      deserializePublicKey (serializePublicKey k) = .ok k) ∧
    (∀ k : Secp256k1PublicKey, secpPublicKeyBytesOk k.bytes = true →
      deserializeSecpPublicKey (serializeSecpPublicKey k) = .ok k) ∧
    (∀ k : XOnlyPublicKey, k.bytes.length = 32 →
      deserializeXOnlyPublicKey (serializeXOnlyPublicKey k) = .ok k) ∧
    (∀ s : EcdsaSignature, derSigOk s.signature.der = true →
      ecdsaStdSighash s.sighashType = true →
      deserializeEcdsaSignature (serializeEcdsaSignature s) = .ok s) ∧
    (∀ s : TaprootSignature, s.signature.bytes.length = 64 →
      tapStdSighash s.sighashType = true →
      deserializeTaprootSignature (serializeTaprootSignature s) = .ok s) ∧
    (∀ p : ScriptBuf × LeafVersion, leafVersionOk p.2 = true →
      deserializeScriptLeafVersion (serializeScriptLeafVersion p) = .ok p) ∧
    (∀ p : XOnlyPublicKey × TapLeafHash, p.1.bytes.length = 32 → p.2.bytes.length = 32 →
      deserializeXOnlyLeafHash (serializeXOnlyLeafHash p) = .ok p) ∧
    (∀ p : List TapLeafHash × KeySource, (∀ x ∈ p.1, x.bytes.length = 32) →
      p.1.length < 18446744073709551616 → p.2.fingerprint.length = 4 →
      (∀ i ∈ p.2.path, i < 4294967296) →
      deserializeLeafHashesKeySource (serializeLeafHashesKeySource p) = .ok p) ∧
    (∀ c : ControlBlock, controlBlockOk c.bytes = true →
      deserializeControlBlock (serializeControlBlock c) = .ok c) ∧
    (∀ t : TapShape, shapeOk t 0 = true →
      deserializeTapTree (serializeTapTree ⟨nodeOf t⟩) = .ok ⟨nodeOf t⟩) :=
  ⟨u32_roundtrip, sequence_roundtrip, psbtSighashType_roundtrip, keySource_roundtrip,
   publicKey_roundtrip, secpPublicKey_roundtrip, xonly_roundtrip, ecdsa_roundtrip,
   taprootSig_roundtrip, scriptLeafVersion_roundtrip, xonlyLeafHash_roundtrip,
   leafHashesKeySource_roundtrip, controlBlock_roundtrip, taptree_roundtrip_shape⟩

/-- Witness for C1: every conjunct instantiated at a concrete value,
including the round-trip of the five-leaf sample tree at depths
2, 2, 2, 3, 3 from the test scenario. -/
theorem claim1_roundtrip_witness :
    deserializeU32 (serializeU32 7) = .ok 7 ∧
    deserializeSequence (serializeSequence 4294967295) = .ok 4294967295 ∧
    deserializePsbtSighashType (serializePsbtSighashType ⟨222⟩) = .ok ⟨222⟩ ∧
    deserializeKeySource (serializeKeySource ⟨[1, 2, 3, 4], [5, 2147483648]⟩) =
      .ok ⟨[1, 2, 3, 4], [5, 2147483648]⟩ ∧
    deserializePublicKey (serializePublicKey ⟨2 :: List.replicate 32 9⟩) =
      .ok ⟨2 :: List.replicate 32 9⟩ ∧
    deserializeSecpPublicKey (serializeSecpPublicKey ⟨3 :: List.replicate 32 9⟩) =
      .ok ⟨3 :: List.replicate 32 9⟩ ∧
    deserializeXOnlyPublicKey (serializeXOnlyPublicKey ⟨List.replicate 32 7⟩) =
      .ok ⟨List.replicate 32 7⟩ ∧
    deserializeEcdsaSignature
      (serializeEcdsaSignature ⟨⟨[0x30, 6, 2, 1, 1, 2, 1, 1]⟩, 1⟩) =
      .ok ⟨⟨[0x30, 6, 2, 1, 1, 2, 1, 1]⟩, 1⟩ ∧
    deserializeTaprootSignature
      (serializeTaprootSignature ⟨⟨List.replicate 64 1⟩, 0x81⟩) =
      .ok ⟨⟨List.replicate 64 1⟩, 0x81⟩ ∧
    deserializeScriptLeafVersion (serializeScriptLeafVersion ([0x51], .tapScript)) =
      .ok ([0x51], .tapScript) ∧
    deserializeXOnlyLeafHash
      (serializeXOnlyLeafHash (⟨List.replicate 32 1⟩, ⟨List.replicate 32 2⟩)) =
      .ok (⟨List.replicate 32 1⟩, ⟨List.replicate 32 2⟩) ∧
    deserializeLeafHashesKeySource
      (serializeLeafHashesKeySource ([⟨List.replicate 32 3⟩], ⟨[1, 2, 3, 4], [7]⟩)) =
      .ok ([⟨List.replicate 32 3⟩], ⟨[1, 2, 3, 4], [7]⟩) ∧
    deserializeControlBlock (serializeControlBlock ⟨0xC1 :: List.replicate 32 5⟩) =
      .ok ⟨0xC1 :: List.replicate 32 5⟩ ∧
    deserializeTapTree (serializeTapTree ⟨nodeOf sampleShape⟩) = .ok ⟨nodeOf sampleShape⟩ :=
  ⟨claim1_roundtrip.1 7 (by decide),
   claim1_roundtrip.2.1 4294967295 (by decide),
   claim1_roundtrip.2.2.1 ⟨222⟩ (by decide),
   claim1_roundtrip.2.2.2.1 ⟨[1, 2, 3, 4], [5, 2147483648]⟩ (by decide) (by decide),
   claim1_roundtrip.2.2.2.2.1 ⟨2 :: List.replicate 32 9⟩ (by decide),
   claim1_roundtrip.2.2.2.2.2.1 ⟨3 :: List.replicate 32 9⟩ (by decide),
   claim1_roundtrip.2.2.2.2.2.2.1 ⟨List.replicate 32 7⟩ (by decide),
   claim1_roundtrip.2.2.2.2.2.2.2.1 ⟨⟨[0x30, 6, 2, 1, 1, 2, 1, 1]⟩, 1⟩
     (by decide) (by decide),
   claim1_roundtrip.2.2.2.2.2.2.2.2.1 ⟨⟨List.replicate 64 1⟩, 0x81⟩
     (by decide) (by decide),
   claim1_roundtrip.2.2.2.2.2.2.2.2.2.1 ([0x51], .tapScript) (by decide),
   claim1_roundtrip.2.2.2.2.2.2.2.2.2.2.1
     (⟨List.replicate 32 1⟩, ⟨List.replicate 32 2⟩) (by decide) (by decide),
   claim1_roundtrip.2.2.2.2.2.2.2.2.2.2.2.1
     ([⟨List.replicate 32 3⟩], ⟨[1, 2, 3, 4], [7]⟩)
     (by decide) (by decide) (by decide) (by decide),
   claim1_roundtrip.2.2.2.2.2.2.2.2.2.2.2.2.1 ⟨0xC1 :: List.replicate 32 5⟩ (by decide),
   claim1_roundtrip.2.2.2.2.2.2.2.2.2.2.2.2.2 sampleShape (by decide)⟩

end Psbt
